import Mathlib

/-!
Verification of the optimized audio mixer of mediastreamer2
(src/audiofilters/audiomixer2.c, the portable scalar strategy, and
src/audiofilters/audiomixer_avx2.c, the AVX2 vectorized strategy).

Shallow embedding conventions:
* 16-bit PCM samples and the 32-bit accumulator lanes are modelled as `Int`
  (the C arithmetic on them is exact for the value ranges that occur: at most
  128 saturated 16-bit samples are summed, far below 2^31).
* `uint64_t` ticker times are modelled as `Nat` together with the wrapping
  subtraction `usub64`; the sentinel `(uint64_t) -1` stored in
  `last_flow_control` / `last_activity` is modelled as `Option.none`.
* An `MSBufferizer` holds raw bytes; all frames are sequences of 16-bit
  samples, so it is modelled as a `List Int` of samples, with every byte
  count in the code kept literally (a fullness of `n` bytes corresponds to
  `n / 2` list entries).  The flow-control skip counts produced by the code
  are always even, so sample granularity is faithful.
* A `NULL` input pin (`f->inputs[i] == NULL`) is `Option.none` in the
  per-tick queue list; an output pin is described by a `Bool` connectivity
  list (`f->outputs[i] != NULL`).
-/

def MIXER_MAX_CHANNELS : Nat := 128

def BYPASS_MODE_TIMEOUT : Nat := 1000

/-- Wrapping subtraction of two `uint64_t` values represented as `Nat`. -/
def usub64 (a b : Nat) : Nat := (a + 2 ^ 64 - b) % 2 ^ 64

/-- A PCM frame: a sequence of 16-bit samples. -/
abbrev Frame := List Int

/-- `saturate_sample` from audiomixer2.c:
`(short) (s > 32767 ? 32767 : (s < -32767 ? -32767 : s))`
(the cast to `short` is value-preserving on the clamped result). -/
def saturate_sample (s : Int) : Int :=
  if s > 32767 then 32767 else if s < -32767 then -32767 else s

/-- `saturate` from audiomixer_avx2.c: same clamp, written with early returns. -/
def saturate (s : Int) : Int :=
  if s > 32767 then 32767 else if s < -32767 then -32767 else s

/-- `ms_bufferizer_get_avail`: available bytes (2 bytes per sample). -/
def ms_bufferizer_get_avail (buf : List Int) : Int := 2 * buf.length

/-- `ms_bufferizer_skip_bytes`: drop `skip` bytes from the front of the
buffer.  All skip counts issued by the mixer are even. -/
def ms_bufferizer_skip_bytes (buf : List Int) (skip : Int) : List Int :=
  buf.drop (skip / 2).toNat

/-- `channel_flow_control`, identical in audiomixer2.c and
audiomixer_avx2.c.  It is factored here over exactly the channel fields the
C function touches: the bufferizer, `min_fullness` and
`last_flow_control`.  Returns the updated triple and the number of bytes
skipped. -/
def channel_flow_control (buf : List Int) (min_fullness : Int)
    (last_flow_control : Option Nat) (threshold : Int) (time : Nat) :
    (List Int × Int × Option Nat) × Int :=
  match last_flow_control with
  | none => ((buf, -1, some time), 0)
  | some t0 =>
    let size : Int := ms_bufferizer_get_avail buf
    let minf : Int :=
      if min_fullness = -1 ∨ size < min_fullness then size else min_fullness
    if usub64 time t0 ≥ 5000 then
      if minf ≥ threshold then
        let skip := minf - threshold / 2
        ((ms_bufferizer_skip_bytes buf skip, -1, some time), skip)
      else
        ((buf, -1, some time), 0)
    else
      ((buf, minf, some t0), 0)

/-- The scan of `mixer_check_bypass` (identical in both source files) over
the per-channel `last_activity` stamps and the connected input queues,
pre-zipped with the pin index.  Returns the updated stamps, the number of
active channels and the last `(active_input, activeq)` pair recorded
(the C loop overwrites the pair, so the highest matching pin wins). -/
def bypass_scan (curtime : Nat) :
    Nat → List (Option Nat × Option (List Frame)) →
    List (Option Nat) × Nat × Option (Nat × List Frame)
  | _, [] => ([], 0, none)
  | i, (la, q?) :: rest =>
    let r := bypass_scan curtime (i + 1) rest
    match q? with
    | none => (la :: r.1, r.2)
    | some q =>
      if q ≠ [] then
        (some curtime :: r.1, r.2.1 + 1,
          match r.2.2 with
          | some s => some s
          | none => some (i, q))
      else
        match la with
        | none => (some curtime :: r.1, r.2)
        | some t0 =>
          if usub64 curtime t0 < BYPASS_MODE_TIMEOUT then
            (some t0 :: r.1, r.2.1 + 1,
              match r.2.2 with
              | some s => some s
              | none => some (i, q))
          else
            (some t0 :: r.1, r.2)

/-- `mixer_dispatch_output` (identical in both source files), scanning the
output pins from index `i` upward.  Each element of the scanned list is the
`(connected, output_enabled)` pair of one output pin; the result is the
list of frames put on each of those pins.  With `single_output` set, all
frames go to the first eligible pin and the loop breaks. -/
def dispatch_scan (single conf : Bool) (inq : List Frame) (active_input : Nat) :
    Nat → List (Bool × Bool) → List (List Frame)
  | _, [] => []
  | i, (conn, en) :: rest =>
    if conn = true ∧ en = true ∧ (active_input ≠ i ∨ conf = false) then
      if single then
        inq :: rest.map (fun _ => [])
      else
        inq :: dispatch_scan single conf inq active_input (i + 1) rest
    else
      [] :: dispatch_scan single conf inq active_input (i + 1) rest

/-- In-place update of one list element, as the C code's
`s->channels[pin]` array write. -/
def list_modify {α : Type} (f : α → α) : Nat → List α → List α
  | _, [] => []
  | 0, x :: xs => f x :: xs
  | n + 1, x :: xs => x :: list_modify f n xs

/-! ## Scalar strategy (audiomixer2.c) -/

/-- `Channel` of audiomixer2.c. -/
structure SChannel where
  buf : List Int
  input : List Int
  min_fullness : Int
  last_flow_control : Option Nat
  last_activity : Option Nat
  active : Bool
  output_enabled : Bool
  had_input : Bool
deriving Repr, DecidableEq

/-- `MixerState` of audiomixer2.c (the tick-scoped `sum` is not stored;
`rate` and `nchannels` are C `int`s). -/
structure SState where
  nchannels : Int
  rate : Int
  samplespertick : Nat
  channels : List SChannel
  conf_mode : Bool
  skip_threshold : Int
  bypass_mode : Bool
  single_output : Bool
deriving Repr, DecidableEq

/-- The contribution a channel would drain this tick: the first
samples-per-tick samples of its bufferizer after the queued frames are
appended. -/
def tick_contribution (spt : Nat) (ch : SChannel) (q : List Frame) : List Int :=
  (ch.buf ++ q.flatten).take spt

/-- Whether `ms_bufferizer_read` of one tick block succeeds (it returns 0
when fewer than `bytespertick` bytes are available, and also when
`bytespertick` is 0). -/
def read_ok (spt : Nat) (ch : SChannel) (q : List Frame) : Prop :=
  0 < spt ∧ spt ≤ (ch.buf ++ q.flatten).length

instance (spt : Nat) (ch : SChannel) (q : List Frame) :
    Decidable (read_ok spt ch q) := by unfold read_ok; infer_instance

/-- The body of the scalar input loop (audiomixer2.c, mixer_process lines
271-286) for one connected channel: reset `had_input`, feed the bufferizer
from the queue, read one tick block, accumulate it when the channel is
active, then run flow control. -/
def schannel_process_in (spt : Nat) (thr : Int) (time : Nat)
    (ch : SChannel) (q : List Frame) (sum : List Int) : SChannel × List Int :=
  let buf0 := ch.buf ++ q.flatten
  if read_ok spt ch q then
    let inp := buf0.take spt
    let buf1 := buf0.drop spt
    let sum1 := if ch.active then List.zipWith (· + ·) sum inp else sum
    let fc := channel_flow_control buf1 ch.min_fullness ch.last_flow_control thr time
    ({ ch with
        buf := fc.1.1, input := inp, min_fullness := fc.1.2.1,
        last_flow_control := fc.1.2.2, had_input := ch.active },
      sum1)
  else
    let fc := channel_flow_control buf0 ch.min_fullness ch.last_flow_control thr time
    ({ ch with
        buf := fc.1.1, min_fullness := fc.1.2.1,
        last_flow_control := fc.1.2.2, had_input := false },
      sum)

/-- The scalar input loop over all pins, threading the accumulator.
Pins with no connected input queue are skipped. -/
def s_sum_inputs (spt : Nat) (thr : Int) (time : Nat) :
    List (SChannel × Option (List Frame)) → List Int → List SChannel × List Int
  | [], sum => ([], sum)
  | (ch, none) :: rest, sum =>
    let r := s_sum_inputs spt thr time rest sum
    (ch :: r.1, r.2)
  | (ch, some q) :: rest, sum =>
    let p := schannel_process_in spt thr time ch q sum
    let r := s_sum_inputs spt thr time rest p.2
    (p.1 :: r.1, r.2)

/-- The scalar output loop (audiomixer2.c, mixer_process lines 288-309):
each connected, enabled output receives one frame; a channel that is
active, contributed this tick and is in conference mode gets
`subtract_and_copy_to_out`, every other one gets the `copy_to_out`
generic mix (computed once as `om_cached` and fanned out with `dupb`,
which is value-level sharing). -/
def s_outputs (conf : Bool) (sum : List Int) :
    List (SChannel × Bool) → List (List Frame)
  | [] => []
  | (ch, conn) :: rest =>
    (if conn = true ∧ ch.output_enabled = true then
      [if ch.active = true ∧ ch.had_input = true ∧ conf = true then
        List.zipWith (fun a b => saturate_sample (a - b)) sum ch.input
      else
        sum.map saturate_sample]
    else []) :: s_outputs conf sum rest

/-- `mixer_check_bypass` of audiomixer2.c: run the activity scan and
store the updated `last_activity` stamps back into the channels. -/
def s_check_bypass (s : SState) (queues : List (Option (List Frame)))
    (time : Nat) : SState × Nat × Option (Nat × List Frame) :=
  let r := bypass_scan time 0
    ((s.channels.map (fun c => c.last_activity)).zip queues)
  ({ s with channels :=
      List.zipWith (fun ch la => { ch with last_activity := la }) s.channels r.1 },
    r.2)

/-- `mixer_process` of audiomixer2.c.  `queues` holds the contents of each
connected input queue this tick (`none` = pin not connected), `outConn`
says which output pins are connected.  Returns the new state and the list
of frames put on each output pin. -/
def mixer_process_s (outConn : List Bool) (s : SState) (time : Nat)
    (queues : List (Option (List Frame))) : SState × List (List Frame) :=
  let cb := s_check_bypass s queues time
  let s1 := cb.1
  if cb.2.1 = 1 then
    match cb.2.2 with
    | some (ai, inq) =>
      ({ s1 with bypass_mode := true },
        dispatch_scan s1.single_output s1.conf_mode inq ai 0
          ((s1.channels.map (fun c => c.output_enabled)).zip outConn |>.map
            (fun p => (p.2, p.1))))
    | none => (s1, s1.channels.map (fun _ => []))
  else if cb.2.1 = 0 then
    (s1, s1.channels.map (fun _ => []))
  else
    let sum0 := List.replicate s.samplespertick (0 : Int)
    let ph := s_sum_inputs s.samplespertick s.skip_threshold time
      (s1.channels.zip queues) sum0
    ({ s1 with bypass_mode := false, channels := ph.1 },
      s_outputs s1.conf_mode ph.2 (ph.1.zip outConn))

/-- `has_single_output` (identical in both files): exactly one connected,
enabled output pin. -/
def has_single_output (outConn : List Bool) (enabled : List Bool) : Bool :=
  ((outConn.zip enabled).filter (fun p => p.1 && p.2)).length = 1

/-- `mixer_set_rate` of audiomixer2.c: any multiple of 8000 is accepted. -/
def mixer_set_rate_s (s : SState) (rate : Int) : SState × Int :=
  if rate % 8000 = 0 then ({ s with rate := rate }, 0) else (s, -1)

/-- `mixer_get_rate` of audiomixer2.c. -/
def mixer_get_rate_s (s : SState) : Int := s.rate

/-- `mixer_set_nchannels` of audiomixer2.c (no validation). -/
def mixer_set_nchannels_s (s : SState) (n : Int) : SState × Int :=
  ({ s with nchannels := n }, 0)

/-- `mixer_set_input_gain` of audiomixer2.c: always `-1`, no mutation. -/
def mixer_set_input_gain_s (s : SState) : SState × Int := (s, -1)

/-- `mixer_set_active` of audiomixer2.c. -/
def mixer_set_active_s (s : SState) (pin : Int) (b : Bool) : SState × Int :=
  if pin < 0 ∨ pin ≥ (MIXER_MAX_CHANNELS : Int) then (s, -1)
  else
    ({ s with channels :=
        list_modify (fun ch => { ch with active := b }) pin.toNat s.channels },
      0)

/-- `mixer_enable_output` of audiomixer2.c: validates the pin, sets the
flag and recomputes the cached `single_output`. -/
def mixer_enable_output_s (outConn : List Bool) (s : SState) (pin : Int)
    (b : Bool) : SState × Int :=
  if pin < 0 ∨ pin ≥ (MIXER_MAX_CHANNELS : Int) then (s, -1)
  else
    let chans :=
      list_modify (fun ch => { ch with output_enabled := b }) pin.toNat s.channels
    ({ s with
        channels := chans
        single_output :=
          has_single_output outConn (chans.map (fun c => c.output_enabled)) },
      0)

/-- `mixer_set_conference_mode` of audiomixer2.c (the C `int` is used only
for truthiness, modelled as `Bool`). -/
def mixer_set_conference_s (s : SState) (b : Bool) : SState × Int :=
  ({ s with conf_mode := b }, 0)

/-! ## Vectorized strategy (audiomixer_avx2.c) -/

def VLENGTH : Nat := 8

/-- `Channel` of audiomixer_avx2.c (no `had_input` field). -/
structure AChannel where
  buf : List Int
  input : List Int
  min_fullness : Int
  last_flow_control : Option Nat
  last_activity : Option Nat
  active : Bool
  output_enabled : Bool
deriving Repr, DecidableEq

/-- `MixerState` of audiomixer_avx2.c (stores `bytespertick` instead of
`samplespertick`). -/
structure AState where
  nchannels : Int
  rate : Int
  bytespertick : Nat
  channels : List AChannel
  conf_mode : Bool
  skip_threshold : Int
  bypass_mode : Bool
  single_output : Bool
deriving Repr, DecidableEq

/-- `accumulate` of audiomixer_avx2.c: the vector loop runs over
`nsamples / VLENGTH` lanes of 8 samples, so only the first
`(nsamples / 8) * 8` accumulator entries are touched
(`pmovsxwd` widens 16-bit to 32-bit, value-preserving). -/
def avx_accumulate (sum contrib : List Int) (nsamples : Nat) : List Int :=
  let nv := nsamples / VLENGTH * VLENGTH
  List.zipWith (· + ·) (sum.take nv) (contrib.take nv) ++ sum.drop nv

/-- `channel_process_in` of audiomixer_avx2.c: feed the bufferizer, read
one tick block; on success accumulate when active, on failure zero the
contribution buffer. -/
def achannel_process_in (nsamples : Nat) (ch : AChannel) (q : List Frame)
    (sum : List Int) : AChannel × List Int :=
  let buf0 := ch.buf ++ q.flatten
  if 0 < nsamples ∧ nsamples ≤ buf0.length then
    let inp := buf0.take nsamples
    let sum1 := if ch.active then avx_accumulate sum inp nsamples else sum
    ({ ch with buf := buf0.drop nsamples, input := inp }, sum1)
  else
    ({ ch with buf := buf0, input := List.replicate nsamples 0 }, sum)

/-- The AVX2 input loop (audiomixer_avx2.c, mixer_process lines 308-315):
`channel_process_in` followed by `channel_flow_control` for each connected
pin. -/
def a_sum_inputs (nsamples : Nat) (thr : Int) (time : Nat) :
    List (AChannel × Option (List Frame)) → List Int → List AChannel × List Int
  | [], sum => ([], sum)
  | (ch, none) :: rest, sum =>
    let r := a_sum_inputs nsamples thr time rest sum
    (ch :: r.1, r.2)
  | (ch, some q) :: rest, sum =>
    let p := achannel_process_in nsamples ch q sum
    let fc := channel_flow_control p.1.buf p.1.min_fullness p.1.last_flow_control thr time
    let ch1 := { p.1 with
      buf := fc.1.1
      min_fullness := fc.1.2.1
      last_flow_control := fc.1.2.2 }
    let r := a_sum_inputs nsamples thr time rest p.2
    (ch1 :: r.1, r.2)

/-- `channel_process_out` of audiomixer_avx2.c: for an active channel the
own contribution is removed from the sum before saturating; the vector
loop writes only the first `(nsamples / 8) * 8` samples of the allocated
frame, any remaining tail keeps the uninitialized `allocb` contents
(modelled by `allocG`). -/
def achannel_process_out (allocG : Int) (nsamples : Nat) (ch : AChannel)
    (sum : List Int) : Frame :=
  let nv := nsamples / VLENGTH * VLENGTH
  (if ch.active then
    List.zipWith (fun a b => saturate (a - b)) (sum.take nv) (ch.input.take nv)
  else
    (sum.take nv).map saturate) ++ List.replicate (nsamples - nv) allocG

/-- `make_output` of audiomixer_avx2.c: the shared non-conference output
frame (same tail remark as `achannel_process_out`). -/
def make_output (allocG : Int) (sum : List Int) (nwords : Nat) : Frame :=
  let nv := nwords / VLENGTH * VLENGTH
  (sum.take nv).map saturate ++ List.replicate (nwords - nv) allocG

/-- The AVX2 output loops (audiomixer_avx2.c, mixer_process lines
317-341): without conference mode one shared `make_output` frame is fanned
out; with conference mode each connected, enabled output gets its own
`channel_process_out` frame. -/
def a_outputs (allocG : Int) (nwords : Nat) (conf : Bool) (sum : List Int) :
    List (AChannel × Bool) → List (List Frame)
  | [] => []
  | (ch, conn) :: rest =>
    (if conn = true ∧ ch.output_enabled = true then
      [if conf then achannel_process_out allocG nwords ch sum
       else make_output allocG sum nwords]
    else []) :: a_outputs allocG nwords conf sum rest

/-- `mixer_check_bypass` of audiomixer_avx2.c (same scan as the scalar
strategy). -/
def a_check_bypass (s : AState) (queues : List (Option (List Frame)))
    (time : Nat) : AState × Nat × Option (Nat × List Frame) :=
  let r := bypass_scan time 0
    ((s.channels.map (fun c => c.last_activity)).zip queues)
  ({ s with channels :=
      List.zipWith (fun ch la => { ch with last_activity := la }) s.channels r.1 },
    r.2)

/-- `mixer_process` of audiomixer_avx2.c.  `allocG` is the uninitialized
contents of freshly `allocb`-ed frame tails (never observable when the
sample count is a multiple of 8). -/
def mixer_process_a (outConn : List Bool) (allocG : Int) (s : AState)
    (time : Nat) (queues : List (Option (List Frame))) :
    AState × List (List Frame) :=
  let nwords := s.bytespertick / 2
  let cb := a_check_bypass s queues time
  let s1 := cb.1
  if cb.2.1 = 1 then
    match cb.2.2 with
    | some (ai, inq) =>
      ({ s1 with bypass_mode := true },
        dispatch_scan s1.single_output s1.conf_mode inq ai 0
          ((s1.channels.map (fun c => c.output_enabled)).zip outConn |>.map
            (fun p => (p.2, p.1))))
    | none => (s1, s1.channels.map (fun _ => []))
  else if cb.2.1 = 0 then
    (s1, s1.channels.map (fun _ => []))
  else
    let sum0 := List.replicate nwords (0 : Int)
    let ph := a_sum_inputs nwords s.skip_threshold time
      (s1.channels.zip queues) sum0
    ({ s1 with bypass_mode := false, channels := ph.1 },
      a_outputs allocG nwords s1.conf_mode ph.2 (ph.1.zip outConn))

/-- `mixer_set_rate` of audiomixer_avx2.c: only 8000 and 16000 are
accepted. -/
def mixer_set_rate_a (s : AState) (rate : Int) : AState × Int :=
  if rate = 8000 ∨ rate = 16000 then ({ s with rate := rate }, 0) else (s, -1)

/-- `mixer_get_rate` of audiomixer_avx2.c. -/
def mixer_get_rate_a (s : AState) : Int := s.rate

/-- `mixer_set_nchannels` of audiomixer_avx2.c. -/
def mixer_set_nchannels_a (s : AState) (n : Int) : AState × Int :=
  ({ s with nchannels := n }, 0)

/-- `mixer_set_input_gain` of audiomixer_avx2.c: always `-1`, no
mutation. -/
def mixer_set_input_gain_a (s : AState) : AState × Int := (s, -1)

/-- `mixer_set_active` of audiomixer_avx2.c. -/
def mixer_set_active_a (s : AState) (pin : Int) (b : Bool) : AState × Int :=
  if pin < 0 ∨ pin ≥ (MIXER_MAX_CHANNELS : Int) then (s, -1)
  else
    ({ s with channels :=
        list_modify (fun ch => { ch with active := b }) pin.toNat s.channels },
      0)

/-- `mixer_enable_output` of audiomixer_avx2.c. -/
def mixer_enable_output_a (outConn : List Bool) (s : AState) (pin : Int)
    (b : Bool) : AState × Int :=
  if pin < 0 ∨ pin ≥ (MIXER_MAX_CHANNELS : Int) then (s, -1)
  else
    let chans :=
      list_modify (fun ch => { ch with output_enabled := b }) pin.toNat s.channels
    ({ s with
        channels := chans
        single_output :=
          has_single_output outConn (chans.map (fun c => c.output_enabled)) },
      0)

/-- `mixer_set_conference_mode` of audiomixer_avx2.c. -/
def mixer_set_conference_a (s : AState) (b : Bool) : AState × Int :=
  ({ s with conf_mode := b }, 0)

/-! ## Lifecycle: init + preprocess -/

/-- `channel_init` + `channel_prepare` of audiomixer2.c: the contribution
buffer is `posix_memalign`-allocated and left uninitialized (modelled by
the arbitrary fill value `g`); `ms_new0` zeroes `min_fullness`. -/
def mk_schannel (spt : Nat) (g : Int) : SChannel :=
  { buf := [], input := List.replicate spt g, min_fullness := 0,
    last_flow_control := none, last_activity := none,
    active := true, output_enabled := true, had_input := false }

/-- `mixer_init` + `mixer_preprocess` of audiomixer2.c.
`samplespertick = nchannels * rate * interval / 1000`,
`skip_threshold = samplespertick * 4`. -/
def mk_sstate (nchannels rate interval : Nat) (outConn : List Bool)
    (g : Int) : SState :=
  let spt := nchannels * rate * interval / 1000
  { nchannels := nchannels, rate := rate, samplespertick := spt,
    channels := List.replicate MIXER_MAX_CHANNELS (mk_schannel spt g),
    conf_mode := false, skip_threshold := spt * 4, bypass_mode := false,
    single_output :=
      has_single_output outConn (List.replicate MIXER_MAX_CHANNELS true) }

/-- `channel_init` + `channel_prepare` of audiomixer_avx2.c (the buffer
holds `bytes_per_tick` bytes, i.e. `bytespertick / 2` samples). -/
def mk_achannel (nwords : Nat) (g : Int) : AChannel :=
  { buf := [], input := List.replicate nwords g, min_fullness := 0,
    last_flow_control := none, last_activity := none,
    active := true, output_enabled := true }

/-- `mixer_init` + `mixer_preprocess` of audiomixer_avx2.c.
`bytespertick = 2 * nchannels * rate * interval / 1000`,
`skip_threshold = bytespertick * 2`. -/
def mk_astate (nchannels rate interval : Nat) (outConn : List Bool)
    (g : Int) : AState :=
  let bpt := 2 * nchannels * rate * interval / 1000
  { nchannels := nchannels, rate := rate, bytespertick := bpt,
    channels := List.replicate MIXER_MAX_CHANNELS (mk_achannel (bpt / 2) g),
    conf_mode := false, skip_threshold := bpt * 2, bypass_mode := false,
    single_output :=
      has_single_output outConn (List.replicate MIXER_MAX_CHANNELS true) }

/-! ## Event traces -/

/-- One event delivered to a running mixer: either a ticker tick (with the
current time, the contents of every connected input queue, and the
uninitialized contents of fresh allocations) or a control-surface call. -/
inductive MEvent where
  | tick (time : Nat) (queues : List (Option (List Frame))) (allocG : Int)
  | evSetRate (r : Int)
  | evSetNChannels (n : Int)
  | evSetActive (pin : Int) (b : Bool)
  | evEnableOutput (pin : Int) (b : Bool)
  | evSetConference (b : Bool)
  | evSetInputGain
  | evSetMasterChannel
deriving Repr, DecidableEq

/-- Run the scalar mixer over a trace, collecting the per-tick output
frame lists. -/
def runS (outConn : List Bool) : SState → List MEvent →
    SState × List (List (List Frame))
  | s, [] => (s, [])
  | s, MEvent.tick t qs _ :: evs =>
    let p := mixer_process_s outConn s t qs
    let r := runS outConn p.1 evs
    (r.1, p.2 :: r.2)
  | s, MEvent.evSetRate x :: evs => runS outConn (mixer_set_rate_s s x).1 evs
  | s, MEvent.evSetNChannels n :: evs =>
    runS outConn (mixer_set_nchannels_s s n).1 evs
  | s, MEvent.evSetActive p b :: evs =>
    runS outConn (mixer_set_active_s s p b).1 evs
  | s, MEvent.evEnableOutput p b :: evs =>
    runS outConn (mixer_enable_output_s outConn s p b).1 evs
  | s, MEvent.evSetConference b :: evs =>
    runS outConn (mixer_set_conference_s s b).1 evs
  | s, MEvent.evSetInputGain :: evs =>
    runS outConn (mixer_set_input_gain_s s).1 evs
  | s, MEvent.evSetMasterChannel :: evs => runS outConn s evs

/-- Run the AVX2 mixer over a trace. -/
def runA (outConn : List Bool) : AState → List MEvent →
    AState × List (List (List Frame))
  | s, [] => (s, [])
  | s, MEvent.tick t qs g :: evs =>
    let p := mixer_process_a outConn g s t qs
    let r := runA outConn p.1 evs
    (r.1, p.2 :: r.2)
  | s, MEvent.evSetRate x :: evs => runA outConn (mixer_set_rate_a s x).1 evs
  | s, MEvent.evSetNChannels n :: evs =>
    runA outConn (mixer_set_nchannels_a s n).1 evs
  | s, MEvent.evSetActive p b :: evs =>
    runA outConn (mixer_set_active_a s p b).1 evs
  | s, MEvent.evEnableOutput p b :: evs =>
    runA outConn (mixer_enable_output_a outConn s p b).1 evs
  | s, MEvent.evSetConference b :: evs =>
    runA outConn (mixer_set_conference_a s b).1 evs
  | s, MEvent.evSetInputGain :: evs =>
    runA outConn (mixer_set_input_gain_a s).1 evs
  | s, MEvent.evSetMasterChannel :: evs => runA outConn s evs

/-! ## Derived per-tick descriptions used by the theorems -/

instance : Inhabited SChannel :=
  ⟨{ buf := [], input := [], min_fullness := 0, last_flow_control := none,
     last_activity := none, active := true, output_enabled := true,
     had_input := false }⟩

/-- The accumulator contents after the scalar input loop: the elementwise
sum of the tick contributions of every connected, active channel whose
read succeeded. -/
def tick_acc (spt : Nat) :
    List (SChannel × Option (List Frame)) → List Int → List Int
  | [], acc => acc
  | (ch, q?) :: rest, acc =>
    tick_acc spt rest
      (match q? with
       | none => acc
       | some q =>
         if ch.active = true ∧ read_ok spt ch q then
           List.zipWith (· + ·) acc (tick_contribution spt ch q)
         else acc)

/-- The channel state after the scalar input loop processed one pin (the
channel part of `schannel_process_in` does not depend on the accumulator). -/
def schannel_after_in (spt : Nat) (thr : Int) (time : Nat)
    (p : SChannel × Option (List Frame)) : SChannel :=
  match p.2 with
  | none => p.1
  | some q => (schannel_process_in spt thr time p.1 q []).1

/-- The frame the scalar output loop emits for one connected, enabled
output pin. -/
def s_outframe (conf : Bool) (sum : List Int) (ch : SChannel) : Frame :=
  if ch.active = true ∧ ch.had_input = true ∧ conf = true then
    List.zipWith (fun a b => saturate_sample (a - b)) sum ch.input
  else sum.map saturate_sample

/-- The bufferizer contents of one channel after this tick's drain
attempt (unchanged when the read fails). -/
def s_drained (spt : Nat) (ch : SChannel) (q : List Frame) : List Int :=
  if read_ok spt ch q then (ch.buf ++ q.flatten).drop spt
  else ch.buf ++ q.flatten

/-! ## Relations between the scalar and the vectorized state (C2) -/

/-- Corresponding channels of the two strategies agree on every field the
scalar `Channel` and the AVX2 `Channel` share except the per-tick
contribution buffer. -/
def chanRel (sc : SChannel) (ac : AChannel) : Prop :=
  sc.buf = ac.buf ∧ sc.min_fullness = ac.min_fullness ∧
  sc.last_flow_control = ac.last_flow_control ∧
  sc.last_activity = ac.last_activity ∧
  sc.active = ac.active ∧ sc.output_enabled = ac.output_enabled

/-- Simulation relation between a scalar and an AVX2 mixer state: same
configuration (with the AVX2 byte count being twice the scalar sample
count, a multiple of 16), same channel table. -/
def stRel (s : SState) (a : AState) : Prop :=
  a.bytespertick = 2 * s.samplespertick ∧
  8 ∣ s.samplespertick ∧
  s.channels.length = MIXER_MAX_CHANNELS ∧
  a.skip_threshold = s.skip_threshold ∧
  a.conf_mode = s.conf_mode ∧ a.bypass_mode = s.bypass_mode ∧
  a.single_output = s.single_output ∧
  List.Forall₂ chanRel s.channels a.channels

/-! ## C7: saturation -/

lemma saturate_eq_saturate_sample (x : Int) : saturate x = saturate_sample x := rfl

/-- C7: both saturation functions clamp every sample value to the
asymmetric range [-32767, 32767] (so -32768 is never produced), and
saturation is idempotent. -/
theorem saturate_clamps_and_is_idempotent (x : Int) :
    (-32767 ≤ saturate_sample x ∧ saturate_sample x ≤ 32767) ∧
    saturate_sample x ≠ -32768 ∧
    saturate_sample (saturate_sample x) = saturate_sample x ∧
    saturate x = saturate_sample x ∧
    saturate (saturate x) = saturate x := by
  unfold saturate saturate_sample
  split_ifs <;> omega

/-! ## C8: setRate validation -/

/-- C8: `setRate` succeeds exactly under the active strategy's rate
constraint (any multiple of 8000 for the scalar strategy, 8000 or 16000
for the vectorized one); on rejection it returns -1 and leaves the state,
hence `getRate`, untouched; on success `getRate` returns the new rate. -/
theorem set_rate_validates_and_preserves (s : SState) (a : AState) (r : Int) :
    ((mixer_set_rate_s s r).2 = 0 ↔ (8000 : Int) ∣ r) ∧
    ((mixer_set_rate_a a r).2 = 0 ↔ (r = 8000 ∨ r = 16000)) ∧
    (¬ (8000 : Int) ∣ r →
      mixer_set_rate_s s r = (s, -1) ∧
      mixer_get_rate_s (mixer_set_rate_s s r).1 = mixer_get_rate_s s) ∧
    ((8000 : Int) ∣ r → mixer_get_rate_s (mixer_set_rate_s s r).1 = r) ∧
    (¬ (r = 8000 ∨ r = 16000) →
      mixer_set_rate_a a r = (a, -1) ∧
      mixer_get_rate_a (mixer_set_rate_a a r).1 = mixer_get_rate_a a) ∧
    ((r = 8000 ∨ r = 16000) → mixer_get_rate_a (mixer_set_rate_a a r).1 = r) := by
  have hdvd : r % 8000 = 0 ↔ (8000 : Int) ∣ r :=
    Int.dvd_iff_emod_eq_zero.symm
  unfold mixer_set_rate_s mixer_set_rate_a mixer_get_rate_s mixer_get_rate_a
  split_ifs with h1 h2 <;> simp_all

/-- Witness for C8 at the spec's concrete rates: 11025 is rejected by both
strategies with the rate unchanged, 16000 is accepted and read back. -/
theorem set_rate_validates_witness :
    let s0 := mk_sstate 1 16000 10 (List.replicate MIXER_MAX_CHANNELS true) 0
    let a0 := mk_astate 1 16000 10 (List.replicate MIXER_MAX_CHANNELS true) 0
    (¬ (8000 : Int) ∣ 11025 →
      mixer_set_rate_s s0 11025 = (s0, -1) ∧
      mixer_get_rate_s (mixer_set_rate_s s0 11025).1 = mixer_get_rate_s s0) ∧
    ((8000 : Int) ∣ 16000 → mixer_get_rate_s (mixer_set_rate_s s0 16000).1 = 16000) ∧
    (¬ ((11025 : Int) = 8000 ∨ (11025 : Int) = 16000) →
      mixer_set_rate_a a0 11025 = (a0, -1) ∧
      mixer_get_rate_a (mixer_set_rate_a a0 11025).1 = mixer_get_rate_a a0) ∧
    (((16000 : Int) = 8000 ∨ (16000 : Int) = 16000) →
      mixer_get_rate_a (mixer_set_rate_a a0 16000).1 = 16000) := by
  intro s0 a0
  exact ⟨(set_rate_validates_and_preserves s0 a0 11025).2.2.1,
    (set_rate_validates_and_preserves s0 a0 16000).2.2.2.1,
    (set_rate_validates_and_preserves s0 a0 11025).2.2.2.2.1,
    (set_rate_validates_and_preserves s0 a0 16000).2.2.2.2.2⟩

/-! ## C9: pin validation and unimplemented gain control -/

/-- C9: out-of-range pins make `setActive`/`setOutputEnabled` fail with -1
and leave the state unchanged, in both strategies; `setInputGain` always
fails with -1 and never mutates. -/
theorem out_of_range_pins_and_gain_do_not_mutate (s : SState) (a : AState)
    (outConn : List Bool) (pin : Int) (b : Bool)
    (hpin : pin < 0 ∨ pin ≥ (MIXER_MAX_CHANNELS : Int)) :
    mixer_set_active_s s pin b = (s, -1) ∧
    mixer_enable_output_s outConn s pin b = (s, -1) ∧
    mixer_set_active_a a pin b = (a, -1) ∧
    mixer_enable_output_a outConn a pin b = (a, -1) ∧
    mixer_set_input_gain_s s = (s, -1) ∧
    mixer_set_input_gain_a a = (a, -1) := by
  unfold mixer_set_active_s mixer_enable_output_s mixer_set_active_a
    mixer_enable_output_a mixer_set_input_gain_s mixer_set_input_gain_a
  split_ifs
  simp_all

/-- Witness for C9 at pin 128 (= capacity) and pin -1. -/
theorem out_of_range_pins_witness :
    let s0 := mk_sstate 1 16000 10 (List.replicate MIXER_MAX_CHANNELS true) 0
    let a0 := mk_astate 1 16000 10 (List.replicate MIXER_MAX_CHANNELS true) 0
    (((128 : Int) < 0 ∨ (128 : Int) ≥ (MIXER_MAX_CHANNELS : Int)) ∧
      mixer_set_active_s s0 128 true = (s0, -1)) ∧
    (((-1 : Int) < 0 ∨ (-1 : Int) ≥ (MIXER_MAX_CHANNELS : Int)) ∧
      mixer_set_active_a a0 (-1) true = (a0, -1)) := by
  intro s0 a0
  refine ⟨⟨by decide, ?_⟩, ⟨by decide, ?_⟩⟩
  · exact (out_of_range_pins_and_gain_do_not_mutate s0 a0
      (List.replicate MIXER_MAX_CHANNELS true) 128 true (by decide)).1
  · exact (out_of_range_pins_and_gain_do_not_mutate s0 a0
      (List.replicate MIXER_MAX_CHANNELS true) (-1) true (by decide)).2.2.1

/-! ## C5: flow control -/

lemma usub64_eq_sub {a b : Nat} (hba : b ≤ a) (ha : a < 2 ^ 64) :
    usub64 a b = a - b := by
  unfold usub64
  have h1 : a + 2 ^ 64 - b = (a - b) + 2 ^ 64 := by omega
  rw [h1, Nat.add_mod_right, Nat.mod_eq_of_lt (by omega)]

/-- C5: flow-control behavior with the threshold `4 * samplespertick` the
mixers pass.  The first invocation after reset only seeds the baseline;
later invocations track the running minimum of the fullness; at a window
boundary (elapsed ≥ 5000) the buffer is trimmed by exactly
`minFullness - threshold / 2` bytes when the minimum reached the
threshold, and baseline and minimum are reset either way. -/
theorem flow_control_window_behavior (buf : List Int) (minf : Int)
    (spt : Nat) (t0 time : Nat) (thr size m : Int)
    (hthr : thr = 4 * spt)
    (hsizes : size = ms_bufferizer_get_avail buf)
    (hmdef : m = if minf = -1 ∨ size < minf then size else minf)
    (hmono : t0 ≤ time) (htime : time < 2 ^ 64)
    (hminf : minf = -1 ∨ (0 ≤ minf ∧ (2 : Int) ∣ minf)) :
    channel_flow_control buf minf none thr time = ((buf, -1, some time), 0) ∧
    (time - t0 < 5000 →
      channel_flow_control buf minf (some t0) thr time = ((buf, m, some t0), 0)) ∧
    (5000 ≤ time - t0 →
      (thr ≤ m →
        (channel_flow_control buf minf (some t0) thr time).2 = m - thr / 2 ∧
        ms_bufferizer_get_avail
            (channel_flow_control buf minf (some t0) thr time).1.1 =
          size - (m - thr / 2) ∧
        (channel_flow_control buf minf (some t0) thr time).1.2 =
          (-1, some time)) ∧
      (m < thr →
        channel_flow_control buf minf (some t0) thr time =
          ((buf, -1, some time), 0))) := by
  subst hthr hsizes
  have husub : usub64 time t0 = time - t0 := usub64_eq_sub hmono htime
  have hsize : ms_bufferizer_get_avail buf = 2 * (buf.length : Int) := rfl
  have hm_le : m ≤ ms_bufferizer_get_avail buf := by
    by_cases hc : minf = -1 ∨ ms_bufferizer_get_avail buf < minf
    · rw [hmdef, if_pos hc]
    · rw [hmdef, if_neg hc]
      push_neg at hc
      exact hc.2
  have hm_even : (2 : Int) ∣ m := by
    by_cases hc : minf = -1 ∨ ms_bufferizer_get_avail buf < minf
    · rw [hmdef, if_pos hc, hsize]; exact ⟨(buf.length : Int), rfl⟩
    · rw [hmdef, if_neg hc]
      rcases hminf with h | h
      · exact absurd (Or.inl h) hc
      · exact h.2
  refine ⟨rfl, ?_, ?_⟩
  · intro hlt
    simp only [channel_flow_control, husub, ge_iff_le]
    rw [if_neg (by omega), ← hmdef]
  · intro hge
    constructor
    · intro hthrm
      rw [hmdef] at hthrm
      simp only [channel_flow_control, husub, ge_iff_le]
      rw [if_pos (by omega), if_pos (by exact hthrm), ← hmdef]
      refine ⟨rfl, ?_, rfl⟩
      simp only [ms_bufferizer_skip_bytes, ms_bufferizer_get_avail,
        List.length_drop]
      have hthr2 : (4 * (spt : Int)) / 2 = 2 * (spt : Int) := by omega
      have hspt : (0 : Int) ≤ (spt : Int) := Int.natCast_nonneg spt
      rw [hsize] at hm_le
      omega
    · intro hltm
      rw [hmdef] at hltm
      simp only [channel_flow_control, husub, ge_iff_le]
      rw [if_pos (by omega), if_neg (by omega)]

/-- Witness for C5: spt = 2 (threshold 8 bytes), a buffer of 5 samples
(10 bytes), minimum still unset, window boundary at time 5000: skip is
10 - 4 = 6 bytes, leaving 4 bytes. -/
theorem flow_control_window_witness :
    (0 : Nat) ≤ 5000 ∧ (5000 : Nat) < 2 ^ 64 ∧
    ((-1 : Int) = -1 ∨ (0 ≤ (-1 : Int) ∧ (2 : Int) ∣ (-1))) ∧
    ((5000 : Nat) - 0 < 5000 →
      channel_flow_control [1, 2, 3, 4, 5] (-1) (some 0) (4 * (2 : Nat)) 5000 =
        (([1, 2, 3, 4, 5], 10, some 0), 0)) ∧
    ((4 * ((2 : Nat) : Int) ≤ 10 →
      (channel_flow_control [1, 2, 3, 4, 5] (-1) (some 0) (4 * (2 : Nat)) 5000).2 =
        10 - 4 * ((2 : Nat) : Int) / 2) ∧
      channel_flow_control [1, 2, 3, 4, 5] (-1) (some 0) (4 * (2 : Nat)) 5000 =
        (([4, 5], -1, some 5000), 6)) := by
  refine ⟨by omega, by norm_num, Or.inl rfl, ?_, ?_, by decide⟩
  · intro h
    exact absurd h (by omega)
  · intro h
    have hm := (flow_control_window_behavior [1, 2, 3, 4, 5] (-1) 2 0 5000
      (4 * ((2 : Nat) : Int)) 10 10 rfl (by decide) (by decide)
      (by omega) (by norm_num) (Or.inl rfl)).2.2 (by omega)
    have h1 := (hm.1 (by decide)).1
    simpa using h1


/-! ## C10: hangover activity on never-contributing channels -/

lemma bypass_scan_append_none (t i0 : Nat)
    (xs ys : List (Option Nat × Option (List Frame)))
    (hxs : ∀ e ∈ xs, e.2 = (none : Option (List Frame))) :
    bypass_scan t i0 (xs ++ ys) =
      (xs.map Prod.fst ++ (bypass_scan t (i0 + xs.length) ys).1,
        (bypass_scan t (i0 + xs.length) ys).2) := by
  induction xs generalizing i0 with
  | nil => simp
  | cons e rest ih =>
    obtain ⟨la, q?⟩ := e
    have hq : q? = none := hxs (la, q?) (List.mem_cons_self _ _)
    subst hq
    have h2 : i0 + 1 + rest.length = i0 + (rest.length + 1) := by omega
    simp only [List.cons_append, bypass_scan, List.map_cons, List.length_cons,
      List.append_eq, ih (i0 + 1) (fun e he => hxs e (List.mem_cons_of_mem _ he)), h2]

lemma zipWith_set_la_self (l : List SChannel) :
    List.zipWith (fun ch la => { ch with last_activity := la }) l
      (l.map (fun c => c.last_activity)) = l := by
  induction l with
  | nil => rfl
  | cons c rest ih => simp [List.zipWith, ih]

lemma bypass_scan_all_none (t i0 : Nat)
    (xs : List (Option Nat × Option (List Frame)))
    (hxs : ∀ e ∈ xs, e.2 = (none : Option (List Frame))) :
    bypass_scan t i0 xs = (xs.map Prod.fst, 0, none) := by
  have h := bypass_scan_append_none t i0 xs [] hxs
  simpa [bypass_scan] using h

/-- C10: a connected input channel whose queue is always empty.  The setup
has the channel at pin `c1.length`, every other pin unconnected.  On the
first tick after prepare (`last_activity` still the sentinel) the stamp is
seeded to the tick time and the channel is not counted active, so the tick
is a no-op that emits nothing.  On a later tick within the 1000-unit
hangover window the channel is counted active and is even selected as the
bypass source together with its empty queue, and the tick takes the bypass
path. -/
theorem empty_channel_hangover_counts_active (st : SState)
    (c1 c2 : List SChannel) (ch : SChannel) (outConn : List Bool)
    (t0 t1 : Nat) (hch : st.channels = c1 ++ ch :: c2) :
    let queues : List (Option (List Frame)) :=
      c1.map (fun _ => none) ++ some [] :: c2.map (fun _ => none)
    (ch.last_activity = none →
      (s_check_bypass st queues t0).2.1 = 0 ∧
      (s_check_bypass st queues t0).1.channels =
        c1 ++ { ch with last_activity := some t0 } :: c2 ∧
      (mixer_process_s outConn st t0 queues).2 =
        st.channels.map (fun _ => [])) ∧
    (ch.last_activity = some t0 → usub64 t1 t0 < BYPASS_MODE_TIMEOUT →
      (s_check_bypass st queues t1).2.1 = 1 ∧
      (s_check_bypass st queues t1).2.2 = some (c1.length, []) ∧
      (mixer_process_s outConn st t1 queues).1.bypass_mode = true) := by
  intro queues
  have hlen : (c1.map (fun c => c.last_activity)).length =
      (c1.map (fun _ => (none : Option (List Frame)))).length := by
    simp
  have hnone : ∀ (l : List SChannel),
      ∀ e ∈ (l.map (fun c => c.last_activity)).zip
        (l.map (fun _ => (none : Option (List Frame)))),
      e.2 = (none : Option (List Frame)) := by
    intro l e he
    have h2 := (List.of_mem_zip he).2
    simp only [List.mem_map] at h2
    exact h2.choose_spec.2.symm
  have hxslen : ((c1.map (fun c => c.last_activity)).zip
      (c1.map (fun _ => (none : Option (List Frame))))).length = c1.length := by
    simp
  have hzip : (st.channels.map (fun c => c.last_activity)).zip queues =
      ((c1.map (fun c => c.last_activity)).zip
        (c1.map (fun _ => (none : Option (List Frame))))) ++
      ((ch.last_activity, some ([] : List Frame)) ::
        ((c2.map (fun c => c.last_activity)).zip
          (c2.map (fun _ => (none : Option (List Frame)))))) := by
    rw [hch]
    simp only [queues, List.map_append, List.map_cons]
    rw [List.zip_append hlen]
    simp
  have hscan : ∀ t : Nat,
      bypass_scan t 0 ((st.channels.map (fun c => c.last_activity)).zip queues) =
      (c1.map (fun c => c.last_activity) ++
          (bypass_scan t c1.length
            ((ch.last_activity, some ([] : List Frame)) ::
              (c2.map (fun c => c.last_activity)).zip
                (c2.map (fun _ => (none : Option (List Frame)))))).1,
        (bypass_scan t c1.length
          ((ch.last_activity, some ([] : List Frame)) ::
            (c2.map (fun c => c.last_activity)).zip
              (c2.map (fun _ => (none : Option (List Frame)))))).2) := by
    intro t
    rw [hzip, bypass_scan_append_none t 0 _ _ (hnone c1), hxslen,
      List.map_fst_zip _ _ (le_of_eq hlen)]
    simp
  have hrest : ∀ t : Nat,
      bypass_scan t (c1.length + 1)
        ((c2.map (fun c => c.last_activity)).zip
          (c2.map (fun _ => (none : Option (List Frame))))) =
      (c2.map (fun c => c.last_activity), 0, none) := by
    intro t
    rw [bypass_scan_all_none t (c1.length + 1) _ (hnone c2),
      List.map_fst_zip _ _ (by simp)]
  have hchannels : List.zipWith (fun c la => { c with last_activity := la })
      st.channels (c1.map (fun c => c.last_activity) ++
        some t0 :: c2.map (fun c => c.last_activity)) =
      c1 ++ { ch with last_activity := some t0 } :: c2 := by
    rw [hch, List.zipWith_append _ _ _ _ _ (by simp), zipWith_set_la_self c1]
    simp [List.zipWith, zipWith_set_la_self c2]
  constructor
  · intro hla
    have htail : bypass_scan t0 c1.length
        ((ch.last_activity, some ([] : List Frame)) ::
          (c2.map (fun c => c.last_activity)).zip
            (c2.map (fun _ => (none : Option (List Frame))))) =
        (some t0 :: c2.map (fun c => c.last_activity), 0, none) := by
      rw [hla]
      simp only [bypass_scan, hrest t0]
      rfl
    have hr : bypass_scan t0 0
        ((st.channels.map (fun c => c.last_activity)).zip queues) =
        (c1.map (fun c => c.last_activity) ++
          some t0 :: c2.map (fun c => c.last_activity), 0, none) := by
      rw [hscan t0, htail]
    have hcb : s_check_bypass st queues t0 =
        ({ st with channels := c1 ++ { ch with last_activity := some t0 } :: c2 },
          0, none) := by
      simp only [s_check_bypass, hr]
      rw [hchannels]
    refine ⟨by rw [hcb], by rw [hcb], ?_⟩
    simp only [mixer_process_s]
    rw [hcb]
    simp [hch]
  · intro hla hw
    have htail : bypass_scan t1 c1.length
        ((ch.last_activity, some ([] : List Frame)) ::
          (c2.map (fun c => c.last_activity)).zip
            (c2.map (fun _ => (none : Option (List Frame))))) =
        (some t0 :: c2.map (fun c => c.last_activity), 1,
          some (c1.length, [])) := by
      rw [hla]
      simp only [bypass_scan, hrest t1]
      simp [hw]
    have hr : bypass_scan t1 0
        ((st.channels.map (fun c => c.last_activity)).zip queues) =
        (c1.map (fun c => c.last_activity) ++
          some t0 :: c2.map (fun c => c.last_activity), 1,
          some (c1.length, [])) := by
      rw [hscan t1, htail]
    have hcb2 : (s_check_bypass st queues t1).2 = (1, some (c1.length, [])) := by
      simp only [s_check_bypass, hr]
    refine ⟨by rw [hcb2], by rw [hcb2], ?_⟩
    simp only [mixer_process_s]
    rw [hcb2]
    simp

/-- Witness for C10: one connected channel, empty queue.  Tick at time 0
seeds the stamp without counting the channel; tick at time 500 (inside the
hangover window) counts it, selects it with its empty queue and enters
bypass. -/
theorem empty_channel_hangover_witness :
    let ch0 := mk_schannel 2 0
    let ch1 := { mk_schannel 2 0 with last_activity := some 0 }
    let st0 : SState :=
      { nchannels := 1
        rate := 8000
        samplespertick := 2
        channels := [ch0]
        conf_mode := false
        skip_threshold := 8
        bypass_mode := false
        single_output := true }
    let st1 : SState := { st0 with channels := [ch1] }
    (ch0.last_activity = none ∧
      (s_check_bypass st0 [some []] 0).2.1 = 0 ∧
      (mixer_process_s [true] st0 0 [some []]).2 =
        st0.channels.map (fun _ => [])) ∧
    (ch1.last_activity = some 0 ∧ usub64 500 0 < BYPASS_MODE_TIMEOUT ∧
      (s_check_bypass st1 [some []] 500).2.1 = 1 ∧
      (s_check_bypass st1 [some []] 500).2.2 = some (0, []) ∧
      (mixer_process_s [true] st1 500 [some []]).1.bypass_mode = true) := by
  intro ch0 ch1 st0 st1
  have h1 := (empty_channel_hangover_counts_active st0 [] [] ch0 [true]
    0 500 rfl).1 rfl
  have h2 := (empty_channel_hangover_counts_active st1 [] [] ch1 [true]
    0 500 rfl).2 rfl (by decide)
  exact ⟨⟨rfl, h1.1, h1.2.2⟩, ⟨rfl, by decide, h2.1, h2.2.1, h2.2.2⟩⟩

/-! ## C3: conference-mode bypass with a single contributor -/

lemma dispatch_scan_length (single conf : Bool) (inq : List Frame)
    (ai i0 : Nat) (l : List (Bool × Bool)) :
    (dispatch_scan single conf inq ai i0 l).length = l.length := by
  induction l generalizing i0 with
  | nil => rfl
  | cons e rest ih =>
    obtain ⟨conn, en⟩ := e
    simp only [dispatch_scan]
    split_ifs <;> simp [ih]

lemma getD_map_nil {A : Type} (l : List A) (j : Nat) :
    (l.map (fun _ => ([] : List Frame))).getD j [] = [] := by
  induction l generalizing j with
  | nil => simp
  | cons e r ih => cases j <;> simp [ih]

lemma dispatch_scan_getD_self (single : Bool) (inq : List Frame)
    (ai i0 j : Nat) (l : List (Bool × Bool)) (hj : j < l.length)
    (hself : i0 + j = ai) :
    (dispatch_scan single true inq ai i0 l).getD j [] = [] := by
  induction l generalizing i0 j with
  | nil => simp at hj
  | cons e rest ih =>
    obtain ⟨conn, en⟩ := e
    cases j with
    | zero =>
      simp only [dispatch_scan]
      rw [if_neg]
      · rfl
      · rintro ⟨-, -, hne | hff⟩
        · exact hne (by omega)
        · exact absurd hff (by simp)
    | succ j' =>
      have hj' : j' < rest.length := by simpa using hj
      simp only [dispatch_scan]
      by_cases hc : conn = true ∧ en = true ∧ (ai ≠ i0 ∨ (true : Bool) = false)
      · rw [if_pos hc]
        cases single with
        | true => simp [getD_map_nil]
        | false =>
          simp only [Bool.false_eq_true, if_false, List.getD_cons_succ]
          exact ih (i0 + 1) j' hj' (by omega)
      · rw [if_neg hc]
        simp only [List.getD_cons_succ]
        exact ih (i0 + 1) j' hj' (by omega)

lemma dispatch_scan_getD_fanout (conf : Bool) (inq : List Frame)
    (ai i0 j : Nat) (l : List (Bool × Bool)) (hj : j < l.length) :
    (dispatch_scan false conf inq ai i0 l).getD j [] =
      if (l.getD j (false, false)).1 = true ∧ (l.getD j (false, false)).2 = true ∧
          (ai ≠ i0 + j ∨ conf = false) then inq else [] := by
  induction l generalizing i0 j with
  | nil => simp at hj
  | cons e rest ih =>
    obtain ⟨conn, en⟩ := e
    cases j with
    | zero =>
      simp only [dispatch_scan, Bool.false_eq_true, if_false]
      by_cases hc : conn = true ∧ en = true ∧ (ai ≠ i0 ∨ conf = false)
      · rw [if_pos hc]
        simp only [List.getD_cons_zero, Nat.add_zero]
        rw [if_pos hc]
      · rw [if_neg hc]
        simp only [List.getD_cons_zero, Nat.add_zero]
        rw [if_neg hc]
    | succ j' =>
      have hj' : j' < rest.length := by simpa using hj
      have harith : i0 + 1 + j' = i0 + (j' + 1) := by omega
      simp only [dispatch_scan, Bool.false_eq_true, if_false]
      by_cases hc : conn = true ∧ en = true ∧ (ai ≠ i0 ∨ conf = false)
      · rw [if_pos hc]
        simp only [List.getD_cons_succ]
        rw [ih (i0 + 1) j' hj', harith]
      · rw [if_neg hc]
        simp only [List.getD_cons_succ]
        rw [ih (i0 + 1) j' hj', harith]

lemma bypass_scan_stamps_length (t i0 : Nat)
    (l : List (Option Nat × Option (List Frame))) :
    (bypass_scan t i0 l).1.length = l.length := by
  induction l generalizing i0 with
  | nil => rfl
  | cons e rest ih =>
    obtain ⟨la, q?⟩ := e
    simp only [bypass_scan]
    cases q? with
    | none => simp [ih]
    | some q =>
      by_cases hq : q ≠ []
      · simp [hq, ih]
      · simp only [if_neg hq]
        cases la with
        | none => simp [ih]
        | some t0 =>
          by_cases hw : usub64 t t0 < BYPASS_MODE_TIMEOUT
          · simp [hw, ih]
          · simp [hw, ih]

lemma zipWith_set_la_map_enabled (l : List SChannel) (las : List (Option Nat))
    (h : l.length ≤ las.length) :
    (List.zipWith (fun c la => { c with last_activity := la }) l las).map
      (fun c => c.output_enabled) = l.map (fun c => c.output_enabled) := by
  induction l generalizing las with
  | nil => rfl
  | cons c rest ih =>
    cases las with
    | nil => simp at h
    | cons la rlas =>
      simp only [List.zipWith, List.map_cons]
      rw [ih rlas (by simpa using h)]

lemma pins_getD (ebs : List Bool) (outConn : List Bool) (j : Nat)
    (hj : j < ebs.length) (hjo : j < outConn.length) :
    ((ebs.zip outConn).map (fun p => (p.2, p.1))).getD j (false, false) =
      (outConn.getD j false, ebs.getD j false) := by
  induction ebs generalizing outConn j with
  | nil => simp at hj
  | cons e rest ih =>
    cases outConn with
    | nil => simp at hjo
    | cons oc rocs =>
      cases j with
      | zero => rfl
      | succ j' =>
        simp only [List.zip_cons_cons, List.map_cons, List.getD_cons_succ]
        exact ih rocs j' (by simpa using hj) (by simpa using hjo)

/-! ## C3: conference-mode bypass with a single contributor -/

/-- C3 (amended): with conference mode on and exactly one channel counted
active, the tick takes the bypass path; the contributor's own output pin
receives no frame at all (it is skipped, not given silence), and - when
the cached single-output flag is off - every other connected, enabled
output receives the contributor's queued frames verbatim. -/
theorem single_contributor_bypass_outputs (outConn : List Bool) (st : SState)
    (time : Nat) (queues : List (Option (List Frame))) (ai : Nat)
    (inq : List Frame)
    (hconf : st.conf_mode = true)
    (hcnt : (s_check_bypass st queues time).2.1 = 1)
    (hsel : (s_check_bypass st queues time).2.2 = some (ai, inq))
    (hql : st.channels.length ≤ queues.length)
    (hol : st.channels.length ≤ outConn.length)
    (hai : ai < st.channels.length) :
    (mixer_process_s outConn st time queues).2.getD ai [] = [] ∧
    (st.single_output = false →
      ∀ j, j < st.channels.length → j ≠ ai →
        outConn.getD j false = true →
        (st.channels.map (fun c => c.output_enabled)).getD j false = true →
        (mixer_process_s outConn st time queues).2.getD j [] = inq) := by
  have hs1chan : (s_check_bypass st queues time).1.channels.map
      (fun c => c.output_enabled) = st.channels.map (fun c => c.output_enabled) := by
    simp only [s_check_bypass]
    apply zipWith_set_la_map_enabled
    rw [bypass_scan_stamps_length]
    simp only [List.length_zip, List.length_map]
    omega
  have hs1cm : (s_check_bypass st queues time).1.conf_mode = st.conf_mode := rfl
  have hs1so : (s_check_bypass st queues time).1.single_output =
      st.single_output := rfl
  have hout : (mixer_process_s outConn st time queues).2 =
      dispatch_scan st.single_output st.conf_mode inq ai 0
        (((st.channels.map (fun c => c.output_enabled)).zip outConn).map
          (fun p => (p.2, p.1))) := by
    simp only [mixer_process_s, hcnt, if_pos]
    rw [hsel]  -- reduce the match
    simp [hs1chan, hs1cm, hs1so]
  have hpinlen :
      (((st.channels.map (fun c => c.output_enabled)).zip outConn).map
        (fun p => (p.2, p.1))).length = st.channels.length := by
    simp only [List.length_map, List.length_zip, List.length_map]
    omega
  constructor
  · rw [hout, hconf]
    exact dispatch_scan_getD_self st.single_output inq ai 0 ai _
      (by rw [hpinlen]; exact hai) (by omega)
  · intro hso j hj hne hoc hen
    rw [hout, hso, dispatch_scan_getD_fanout st.conf_mode inq ai 0 j _
      (by rw [hpinlen]; exact hj)]
    rw [pins_getD _ _ j (by simpa using hj) (by omega)]
    rw [if_pos ⟨hoc, hen, Or.inl (by omega)⟩]

/-- Counterexample to C3 as stated: conference mode, a single active
contributor on pin 0 with one queued frame.  Pin 0's connected, enabled
output receives no frame at all - not a frame of silence - while the other
output receives the frames verbatim. -/
theorem single_contributor_no_silence_counterexample :
    let st : SState :=
      { nchannels := 1
        rate := 8000
        samplespertick := 2
        channels := [mk_schannel 2 0, mk_schannel 2 0]
        conf_mode := true
        skip_threshold := 8
        bypass_mode := false
        single_output := false }
    let queues : List (Option (List Frame)) := [some [[5, 5]], none]
    (s_check_bypass st queues 0).2.1 = 1 ∧
    (mixer_process_s [true, true] st 0 queues).2.getD 0 [] = [] ∧
    ¬ (mixer_process_s [true, true] st 0 queues).2.getD 0 [] =
        [List.replicate 2 (0 : Int)] ∧
    (mixer_process_s [true, true] st 0 queues).2.getD 1 [] = [[5, 5]] := by
  refine ⟨by decide, by decide, by decide, by decide⟩

/-- Witness for C3 (amended) at the same concrete scenario. -/
theorem single_contributor_bypass_witness :
    let st : SState :=
      { nchannels := 1
        rate := 8000
        samplespertick := 2
        channels := [mk_schannel 2 0, mk_schannel 2 0]
        conf_mode := true
        skip_threshold := 8
        bypass_mode := false
        single_output := false }
    let queues : List (Option (List Frame)) := [some [[5, 5]], none]
    (mixer_process_s [true, true] st 0 queues).2.getD 0 [] = [] ∧
    (mixer_process_s [true, true] st 0 queues).2.getD 1 [] = [[5, 5]] := by
  intro st queues
  have h := single_contributor_bypass_outputs [true, true] st 0 queues 0
    [[5, 5]] rfl (by decide) (by decide) (by decide) (by decide) (by decide)
  exact ⟨h.1, h.2 rfl 1 (by decide) (by decide) (by decide) (by decide)⟩

/-! ## The scalar summation path, positionally -/

lemma getD_map_of_lt {α β : Type} (f : α → β) (l : List α) (j : Nat)
    (d : α) (db : β) (hj : j < l.length) :
    (l.map f).getD j db = f (l.getD j d) := by
  induction l generalizing j with
  | nil => simp at hj
  | cons x rest ih =>
    cases j with
    | zero => rfl
    | succ j' => exact ih j' (by simpa using hj)

lemma getD_zip_of_lt {α β : Type} (l1 : List α) (l2 : List β) (j : Nat)
    (d1 : α) (d2 : β) (h1 : j < l1.length) (h2 : j < l2.length) :
    (l1.zip l2).getD j (d1, d2) = (l1.getD j d1, l2.getD j d2) := by
  induction l1 generalizing l2 j with
  | nil => simp at h1
  | cons x rest ih =>
    cases l2 with
    | nil => simp at h2
    | cons y r2 =>
      cases j with
      | zero => rfl
      | succ j' => exact ih r2 j' (by simpa using h1) (by simpa using h2)

lemma getD_zipWith_of_lt {α β γ : Type} (f : α → β → γ) (l1 : List α)
    (l2 : List β) (j : Nat) (d1 : α) (d2 : β) (db : γ)
    (h1 : j < l1.length) (h2 : j < l2.length) :
    (List.zipWith f l1 l2).getD j db = f (l1.getD j d1) (l2.getD j d2) := by
  induction l1 generalizing l2 j with
  | nil => simp at h1
  | cons x rest ih =>
    cases l2 with
    | nil => simp at h2
    | cons y r2 =>
      cases j with
      | zero => rfl
      | succ j' => exact ih r2 j' (by simpa using h1) (by simpa using h2)

lemma schannel_process_in_fst (spt : Nat) (thr : Int) (time : Nat)
    (ch : SChannel) (q : List Frame) (sum : List Int) :
    (schannel_process_in spt thr time ch q sum).1 =
      (schannel_process_in spt thr time ch q []).1 := by
  simp only [schannel_process_in]
  split_ifs <;> rfl

lemma s_sum_inputs_fst (spt : Nat) (thr : Int) (time : Nat)
    (l : List (SChannel × Option (List Frame))) (sum : List Int) :
    (s_sum_inputs spt thr time l sum).1 =
      l.map (schannel_after_in spt thr time) := by
  induction l generalizing sum with
  | nil => rfl
  | cons p rest ih =>
    obtain ⟨ch, q?⟩ := p
    cases q? with
    | none => simp [s_sum_inputs, schannel_after_in, ih]
    | some q =>
      simp only [s_sum_inputs, List.map_cons]
      rw [ih, schannel_process_in_fst]
      rfl

lemma s_sum_inputs_snd (spt : Nat) (thr : Int) (time : Nat)
    (l : List (SChannel × Option (List Frame))) (sum : List Int) :
    (s_sum_inputs spt thr time l sum).2 = tick_acc spt l sum := by
  induction l generalizing sum with
  | nil => rfl
  | cons p rest ih =>
    obtain ⟨ch, q?⟩ := p
    cases q? with
    | none => simp [s_sum_inputs, tick_acc, ih]
    | some q =>
      simp only [s_sum_inputs, tick_acc]
      rw [ih]
      congr 1
      simp only [schannel_process_in, tick_contribution]
      split_ifs <;> simp_all

lemma tick_acc_length (spt : Nat)
    (l : List (SChannel × Option (List Frame))) (acc : List Int)
    (hacc : acc.length = spt) : (tick_acc spt l acc).length = spt := by
  induction l generalizing acc with
  | nil => exact hacc
  | cons p rest ih =>
    obtain ⟨ch, q?⟩ := p
    cases q? with
    | none => exact ih acc hacc
    | some q =>
      simp only [tick_acc]
      by_cases hc : ch.active = true ∧ read_ok spt ch q
      · rw [if_pos hc]
        refine ih _ ?_
        simp only [List.length_zipWith, tick_contribution, List.length_take]
        have := hc.2.2
        omega
      · rw [if_neg hc]
        exact ih acc hacc

lemma schannel_after_in_laset (spt : Nat) (thr : Int) (time : Nat)
    (ch : SChannel) (la : Option Nat) (q? : Option (List Frame)) :
    schannel_after_in spt thr time ({ ch with last_activity := la }, q?) =
      { schannel_after_in spt thr time (ch, q?) with last_activity := la } := by
  cases q? with
  | none => rfl
  | some q =>
    simp only [schannel_after_in, schannel_process_in]
    have hro : read_ok spt { ch with last_activity := la } q =
        read_ok spt ch q := rfl
    simp only [hro]
    split_ifs <;> rfl

lemma s_outframe_laset (conf : Bool) (sum : List Int) (ch : SChannel)
    (la : Option Nat) :
    s_outframe conf sum { ch with last_activity := la } =
      s_outframe conf sum ch := rfl

lemma tick_acc_laset (spt : Nat) (chs : List SChannel)
    (las : List (Option Nat)) (queues : List (Option (List Frame)))
    (acc : List Int) (hlen : chs.length ≤ las.length) :
    tick_acc spt
      ((List.zipWith (fun c la => { c with last_activity := la }) chs las).zip
        queues) acc = tick_acc spt (chs.zip queues) acc := by
  induction chs generalizing las queues acc with
  | nil => simp
  | cons c rest ih =>
    cases las with
    | nil => simp at hlen
    | cons la rlas =>
      cases queues with
      | nil => simp
      | cons q? rq =>
        simp only [List.zipWith, List.zip_cons_cons, tick_acc]
        cases q? with
        | none => exact ih rlas rq acc (by simpa using hlen)
        | some q =>
          have hro : read_ok spt { c with last_activity := la } q =
              read_ok spt c q := rfl
          have hcontrib : tick_contribution spt { c with last_activity := la } q =
              tick_contribution spt c q := rfl
          simp only [hro, hcontrib]
          exact ih rlas rq _ (by simpa using hlen)

lemma s_outputs_getD (conf : Bool) (sum : List Int) (chs : List SChannel)
    (oc : List Bool) (j : Nat) (hj : j < chs.length) (hjo : j < oc.length) :
    (s_outputs conf sum (chs.zip oc)).getD j [] =
      if oc.getD j false = true ∧
          (chs.getD j default).output_enabled = true then
        [s_outframe conf sum (chs.getD j default)]
      else [] := by
  induction chs generalizing oc j with
  | nil => simp at hj
  | cons c rest ih =>
    cases oc with
    | nil => simp at hjo
    | cons o ro =>
      cases j with
      | zero =>
        simp only [List.zip_cons_cons, s_outputs, List.getD_cons_zero]
        by_cases hc : o = true ∧ c.output_enabled = true
        · rw [if_pos hc, if_pos hc]
          rfl
        · rw [if_neg hc, if_neg hc]
      | succ j' =>
        simp only [List.zip_cons_cons, s_outputs, List.getD_cons_succ]
        exact ih ro j' (by simpa using hj) (by simpa using hjo)

lemma schannel_after_in_enabled (spt : Nat) (thr : Int) (time : Nat)
    (p : SChannel × Option (List Frame)) :
    (schannel_after_in spt thr time p).output_enabled = p.1.output_enabled := by
  obtain ⟨ch, q?⟩ := p
  cases q? with
  | none => rfl
  | some q =>
    simp only [schannel_after_in, schannel_process_in]
    split_ifs <;> rfl

lemma schannel_after_in_active (spt : Nat) (thr : Int) (time : Nat)
    (p : SChannel × Option (List Frame)) :
    (schannel_after_in spt thr time p).active = p.1.active := by
  obtain ⟨ch, q?⟩ := p
  cases q? with
  | none => rfl
  | some q =>
    simp only [schannel_after_in, schannel_process_in]
    split_ifs <;> rfl

lemma schannel_after_in_had_input (spt : Nat) (thr : Int) (time : Nat)
    (ch : SChannel) (q : List Frame) :
    (schannel_after_in spt thr time (ch, some q)).had_input =
      if read_ok spt ch q then ch.active else false := by
  simp only [schannel_after_in, schannel_process_in]
  split_ifs <;> rfl

lemma schannel_after_in_input (spt : Nat) (thr : Int) (time : Nat)
    (ch : SChannel) (q : List Frame) :
    (schannel_after_in spt thr time (ch, some q)).input =
      if read_ok spt ch q then tick_contribution spt ch q else ch.input := by
  simp only [schannel_after_in, schannel_process_in, tick_contribution]
  split_ifs <;> rfl

lemma schannel_after_in_flow (spt : Nat) (thr : Int) (time : Nat)
    (ch : SChannel) (q : List Frame) :
    (schannel_after_in spt thr time (ch, some q)).buf =
      (channel_flow_control (s_drained spt ch q) ch.min_fullness
        ch.last_flow_control thr time).1.1 ∧
    (schannel_after_in spt thr time (ch, some q)).min_fullness =
      (channel_flow_control (s_drained spt ch q) ch.min_fullness
        ch.last_flow_control thr time).1.2.1 ∧
    (schannel_after_in spt thr time (ch, some q)).last_flow_control =
      (channel_flow_control (s_drained spt ch q) ch.min_fullness
        ch.last_flow_control thr time).1.2.2 := by
  simp only [schannel_after_in, schannel_process_in, s_drained]
  split_ifs <;> exact ⟨rfl, rfl, rfl⟩

/-- The summation path (at least two counted-active channels), described
pin by pin: every connected, enabled output pin receives exactly the one
frame `s_outframe` computed from the accumulator `tick_acc` and the pin's
post-drain channel state; every other pin receives nothing. -/
lemma mixer_process_sum_getD (outConn : List Bool) (st : SState) (time : Nat)
    (queues : List (Option (List Frame)))
    (hcnt : 2 ≤ (s_check_bypass st queues time).2.1)
    (hql : st.channels.length ≤ queues.length)
    (hol : st.channels.length ≤ outConn.length)
    (j : Nat) (hj : j < st.channels.length) :
    (mixer_process_s outConn st time queues).2.getD j [] =
      if outConn.getD j false = true ∧
          (st.channels.getD j default).output_enabled = true then
        [s_outframe st.conf_mode
          (tick_acc st.samplespertick (st.channels.zip queues)
            (List.replicate st.samplespertick 0))
          (schannel_after_in st.samplespertick st.skip_threshold time
            (st.channels.getD j default, queues.getD j none))]
      else [] := by
  have hlen_stamps : (bypass_scan time 0
      ((st.channels.map (fun c => c.last_activity)).zip queues)).1.length =
      st.channels.length := by
    rw [bypass_scan_stamps_length]
    simp only [List.length_zip, List.length_map]
    omega
  have hs1 : (s_check_bypass st queues time).1.channels =
      List.zipWith (fun c la => { c with last_activity := la }) st.channels
        (bypass_scan time 0
          ((st.channels.map (fun c => c.last_activity)).zip queues)).1 := rfl
  have hs1len : (s_check_bypass st queues time).1.channels.length =
      st.channels.length := by
    rw [hs1]
    simp only [List.length_zipWith, hlen_stamps]
    omega
  have hchj : (s_check_bypass st queues time).1.channels.getD j default =
      { st.channels.getD j default with
        last_activity := (bypass_scan time 0
          ((st.channels.map (fun (c : SChannel) => c.last_activity)).zip
            queues)).1.getD j none } := by
    rw [hs1]
    exact getD_zipWith_of_lt _ _ _ j default none default hj (by omega)
  have hacc : tick_acc st.samplespertick
      ((s_check_bypass st queues time).1.channels.zip queues)
      (List.replicate st.samplespertick 0) =
      tick_acc st.samplespertick (st.channels.zip queues)
        (List.replicate st.samplespertick 0) := by
    rw [hs1]
    exact tick_acc_laset _ _ _ _ _ (by omega)
  simp only [mixer_process_s]
  rw [if_neg (by omega), if_neg (by omega)]
  simp only [s_sum_inputs_fst, s_sum_inputs_snd]
  rw [s_outputs_getD _ _ _ _ j
    (by simp only [List.length_map, List.length_zip]; omega) (by omega)]
  rw [getD_map_of_lt _ _ j (default, none) default
    (by simp only [List.length_zip]; omega)]
  rw [getD_zip_of_lt _ _ j default none (by omega) (by omega)]
  rw [hchj, hacc, schannel_after_in_laset]
  have hen : ({ schannel_after_in st.samplespertick st.skip_threshold time
      (st.channels.getD j default, queues.getD j none) with
        last_activity := (bypass_scan time 0
          ((st.channels.map (fun (c : SChannel) => c.last_activity)).zip
            queues)).1.getD j none }).output_enabled =
      (st.channels.getD j default).output_enabled :=
    schannel_after_in_enabled st.samplespertick st.skip_threshold time
      (st.channels.getD j default, queues.getD j none)
  rw [hen, s_outframe_laset]
  rfl

/-! ## C1: conference-mode summation outputs -/

/-- C1 (amended): on a summation tick (at least two counted-active
channels) with conference mode on, a connected, enabled output pin whose
backing channel is active and contributed this tick receives
`saturate(accumulator - own contribution)` elementwise; every other
connected, enabled output pin receives the generic mix
`saturate(accumulator)` elementwise, where the accumulator is the
elementwise sum of all contributing channels' tick blocks.  In the spec's
example the output bound to channel A is saturate([190, 35]) (not
saturate([190, 135]): `-50+30+5-(-50)` is 35). -/
theorem conference_summation_outputs (outConn : List Bool) (st : SState)
    (time : Nat) (queues : List (Option (List Frame)))
    (hconf : st.conf_mode = true)
    (hcnt : 2 ≤ (s_check_bypass st queues time).2.1)
    (hql : st.channels.length ≤ queues.length)
    (hol : st.channels.length ≤ outConn.length)
    (j : Nat) (hj : j < st.channels.length)
    (hoc : outConn.getD j false = true)
    (hen : (st.channels.getD j default).output_enabled = true) :
    (∀ q, queues.getD j none = some q →
      (st.channels.getD j default).active = true →
      read_ok st.samplespertick (st.channels.getD j default) q →
      (mixer_process_s outConn st time queues).2.getD j [] =
        [List.zipWith (fun a b => saturate_sample (a - b))
          (tick_acc st.samplespertick (st.channels.zip queues)
            (List.replicate st.samplespertick 0))
          (tick_contribution st.samplespertick (st.channels.getD j default) q)]) ∧
    (∀ q, queues.getD j none = some q →
      ¬((st.channels.getD j default).active = true ∧
        read_ok st.samplespertick (st.channels.getD j default) q) →
      (mixer_process_s outConn st time queues).2.getD j [] =
        [(tick_acc st.samplespertick (st.channels.zip queues)
            (List.replicate st.samplespertick 0)).map saturate_sample]) ∧
    (queues.getD j none = none →
      (st.channels.getD j default).had_input = false →
      (mixer_process_s outConn st time queues).2.getD j [] =
        [(tick_acc st.samplespertick (st.channels.zip queues)
            (List.replicate st.samplespertick 0)).map saturate_sample]) := by
  have hmain := mixer_process_sum_getD outConn st time queues hcnt hql hol j hj
  rw [if_pos ⟨hoc, hen⟩] at hmain
  refine ⟨?_, ?_, ?_⟩
  · intro q hq ha hro
    rw [hmain, hq]
    congr 1
    unfold s_outframe
    rw [if_pos ?_]
    · rw [schannel_after_in_input]
      rw [if_pos hro]
    · refine ⟨?_, ?_, hconf⟩
      · rw [schannel_after_in_active]
        exact ha
      · rw [schannel_after_in_had_input, if_pos hro]
        exact ha
  · intro q hq hna
    rw [hmain, hq]
    congr 1
    unfold s_outframe
    rw [if_neg ?_]
    rintro ⟨hact, hhad, -⟩
    rw [schannel_after_in_active] at hact
    rw [schannel_after_in_had_input] at hhad
    by_cases hro : read_ok st.samplespertick (st.channels.getD j default) q
    · exact hna ⟨hact, hro⟩
    · rw [if_neg hro] at hhad
      exact Bool.false_ne_true hhad
  · intro hq hhi
    rw [hmain, hq]
    congr 1
    unfold s_outframe
    rw [if_neg ?_]
    rintro ⟨-, hhad, -⟩
    have hh : (schannel_after_in st.samplespertick st.skip_threshold time
        (st.channels.getD j default, none)).had_input =
        (st.channels.getD j default).had_input := rfl
    rw [hh, hhi] at hhad
    exact Bool.false_ne_true hhad

/-- Counterexample to C1's concrete example: with contributions
A=[100,-50], B=[200,30], C=[-10,5] and conference mode on, the output
bound to channel A is saturate([190, 35]) - the spec's formula
`saturate([100+200-10-100, -50+30+5-(-50)])` evaluates to 35 in the
second slot, not 135. -/
theorem conference_summation_example_counterexample :
    let st : SState :=
      { nchannels := 1
        rate := 8000
        samplespertick := 2
        channels := List.replicate 4 (mk_schannel 2 0)
        conf_mode := true
        skip_threshold := 8
        bypass_mode := false
        single_output := false }
    let queues : List (Option (List Frame)) :=
      [some [[100, -50]], some [[200, 30]], some [[-10, 5]], none]
    let oc : List Bool := [true, true, true, true]
    (mixer_process_s oc st 0 queues).2.getD 0 [] = [[190, 35]] ∧
    ¬ (mixer_process_s oc st 0 queues).2.getD 0 [] = [[190, 135]] := by
  exact ⟨by decide, by decide⟩

/-- Witness for C1 (amended) at the spec's example: contributions
A=[100,-50], B=[200,30], C=[-10,5] on pins 0-2, a listener on pin 3,
conference mode on.  Pin 0 receives saturate([190,35]), the listener
receives saturate([290,-15]). -/
theorem conference_summation_witness :
    let st : SState :=
      { nchannels := 1
        rate := 8000
        samplespertick := 2
        channels := List.replicate 4 (mk_schannel 2 0)
        conf_mode := true
        skip_threshold := 8
        bypass_mode := false
        single_output := false }
    let queues : List (Option (List Frame)) :=
      [some [[100, -50]], some [[200, 30]], some [[-10, 5]], none]
    let oc : List Bool := [true, true, true, true]
    st.conf_mode = true ∧ 2 ≤ (s_check_bypass st queues 0).2.1 ∧
    (mixer_process_s oc st 0 queues).2.getD 0 [] =
      [List.zipWith (fun a b => saturate_sample (a - b))
        (tick_acc 2 (st.channels.zip queues) (List.replicate 2 0))
        (tick_contribution 2 (st.channels.getD 0 default) [[100, -50]])] ∧
    (mixer_process_s oc st 0 queues).2.getD 3 [] =
      [(tick_acc 2 (st.channels.zip queues) (List.replicate 2 0)).map
        saturate_sample] ∧
    (mixer_process_s oc st 0 queues).2.getD 0 [] = [[190, 35]] ∧
    (mixer_process_s oc st 0 queues).2.getD 3 [] = [[290, -15]] := by
  intro st queues oc
  have h := conference_summation_outputs oc st 0 queues rfl (by decide)
    (by decide) (by decide)
  refine ⟨rfl, by decide, ?_, ?_, by decide, by decide⟩
  · exact (h 0 (by decide) (by decide) (by decide)).1 [[100, -50]] rfl rfl
      (by decide)
  · exact (h 3 (by decide) (by decide) (by decide)).2.2 rfl rfl

/-! ## C4: one frame of samples-per-tick per enabled output -/

lemma getD_mem_of_lt {α : Type} (l : List α) (j : Nat) (d : α)
    (h : j < l.length) : l.getD j d ∈ l := by
  induction l generalizing j with
  | nil => simp at h
  | cons x rest ih =>
    cases j with
    | zero => exact List.mem_cons_self _ _
    | succ j' => exact List.mem_cons_of_mem _ (ih j' (by simpa using h))

lemma s_outframe_length (conf : Bool) (sum : List Int) (ch : SChannel)
    (spt : Nat) (hsum : sum.length = spt)
    (hin : ch.had_input = true → ch.input.length = spt) :
    (s_outframe conf sum ch).length = spt := by
  unfold s_outframe
  split_ifs with hc
  · simp only [List.length_zipWith]
    rw [hin hc.2.1, hsum]
    omega
  · simp [hsum]

/-- C4 (amended): the per-tick output shape depends on the counted-active
channel count.  With at least two, the tick sums: every connected, enabled
output pin receives exactly one frame of samples-per-tick samples and
every other pin receives nothing.  With exactly one, the tick always takes
the bypass path: when the cached single-output flag is off, every
connected, enabled output pin receives the contributor's queued packets
verbatim - the contributor's own pin included unless conference mode is
on - and every other pin receives nothing.  With zero, no pin receives
anything. -/
theorem per_tick_output_frames (outConn : List Bool) (st : SState)
    (time : Nat) (queues : List (Option (List Frame)))
    (hql : st.channels.length ≤ queues.length)
    (hol : st.channels.length ≤ outConn.length)
    (hwf : ∀ ch ∈ st.channels, ch.had_input = true →
      ch.input.length = st.samplespertick) :
    (2 ≤ (s_check_bypass st queues time).2.1 →
      ∀ j, j < st.channels.length →
        ((outConn.getD j false = true ∧
            (st.channels.getD j default).output_enabled = true →
          ((mixer_process_s outConn st time queues).2.getD j []).length = 1 ∧
          ∀ fr ∈ (mixer_process_s outConn st time queues).2.getD j [],
            fr.length = st.samplespertick) ∧
        (¬(outConn.getD j false = true ∧
            (st.channels.getD j default).output_enabled = true) →
          (mixer_process_s outConn st time queues).2.getD j [] = []))) ∧
    (∀ ai inq, (s_check_bypass st queues time).2.1 = 1 →
      (s_check_bypass st queues time).2.2 = some (ai, inq) →
      st.single_output = false →
      ∀ j, j < st.channels.length →
        (mixer_process_s outConn st time queues).2.getD j [] =
          if outConn.getD j false = true ∧
              (st.channels.getD j default).output_enabled = true ∧
              (ai ≠ j ∨ st.conf_mode = false) then inq else []) ∧
    ((s_check_bypass st queues time).2.1 = 0 →
      ∀ j, (mixer_process_s outConn st time queues).2.getD j [] = []) := by
  refine ⟨?_, ?_, ?_⟩
  · intro hcnt j hj
    have hmain := mixer_process_sum_getD outConn st time queues hcnt hql hol j hj
    constructor
    · intro hc
      rw [hmain, if_pos hc]
      refine ⟨rfl, ?_⟩
      intro fr hfr
      simp only [List.mem_singleton] at hfr
      subst hfr
      apply s_outframe_length _ _ _ _
        (tick_acc_length _ _ _ (by simp))
      intro hhad
      cases hqj : queues.getD j none with
      | none =>
        rw [hqj] at hhad
        exact hwf _ (getD_mem_of_lt _ j _ hj) hhad
      | some q =>
        rw [hqj] at hhad
        rw [schannel_after_in_had_input] at hhad
        by_cases hro : read_ok st.samplespertick (st.channels.getD j default) q
        · rw [schannel_after_in_input, if_pos hro]
          simp only [tick_contribution, List.length_take]
          have := hro.2
          omega
        · rw [if_neg hro] at hhad
          exact absurd hhad (by simp)
    · intro hc
      rw [hmain, if_neg hc]
  · intro ai inq hcnt hsel hso j hj
    have hs1chan : (s_check_bypass st queues time).1.channels.map
        (fun c => c.output_enabled) =
        st.channels.map (fun c => c.output_enabled) := by
      simp only [s_check_bypass]
      apply zipWith_set_la_map_enabled
      rw [bypass_scan_stamps_length]
      simp only [List.length_zip, List.length_map]
      omega
    have hs1cm : (s_check_bypass st queues time).1.conf_mode =
        st.conf_mode := rfl
    have hs1so : (s_check_bypass st queues time).1.single_output =
        st.single_output := rfl
    have hout : (mixer_process_s outConn st time queues).2 =
        dispatch_scan st.single_output st.conf_mode inq ai 0
          (((st.channels.map (fun c => c.output_enabled)).zip outConn).map
            (fun p => (p.2, p.1))) := by
      simp only [mixer_process_s, hcnt, if_pos]
      rw [hsel]
      simp [hs1chan, hs1cm, hs1so]
    have hpinlen :
        (((st.channels.map (fun c => c.output_enabled)).zip outConn).map
          (fun p => (p.2, p.1))).length = st.channels.length := by
      simp only [List.length_map, List.length_zip, List.length_map]
      omega
    rw [hout, hso, dispatch_scan_getD_fanout st.conf_mode inq ai 0 j _
      (by rw [hpinlen]; exact hj)]
    rw [pins_getD _ _ j (by simpa using hj) (by omega)]
    simp only [Nat.zero_add,
      getD_map_of_lt (fun (c : SChannel) => c.output_enabled)
        st.channels j default false hj]
  · intro hcnt j
    simp only [mixer_process_s]
    rw [if_neg (by omega), if_pos hcnt]
    exact getD_map_nil _ j

/-- Counterexample to C4 as stated: with zero counted-active channels the
tick is a no-op and the connected, enabled output pin 0 receives no frame
at all, not "exactly one frame of length samples-per-tick". -/
theorem per_tick_output_counterexample :
    let st : SState :=
      { nchannels := 1
        rate := 8000
        samplespertick := 2
        channels := [mk_schannel 2 0]
        conf_mode := false
        skip_threshold := 8
        bypass_mode := false
        single_output := true }
    (s_check_bypass st [none] 0).2.1 = 0 ∧
    (mixer_process_s [true] st 0 [none]).2.getD 0 [] = [] ∧
    ¬ ((mixer_process_s [true] st 0 [none]).2.getD 0 []).length = 1 := by
  exact ⟨by decide, by decide, by decide⟩

/-- Witness for C4 (amended): a summation tick with two contributing
channels emits exactly one 2-sample frame on the enabled output; and a
bypass tick with conference mode off forwards the single contributor's
packets verbatim to the contributor's own connected, enabled output. -/
theorem per_tick_output_witness :
    let st : SState :=
      { nchannels := 1
        rate := 8000
        samplespertick := 2
        channels := [mk_schannel 2 0, mk_schannel 2 0]
        conf_mode := false
        skip_threshold := 8
        bypass_mode := false
        single_output := false }
    let queues : List (Option (List Frame)) := [some [[1, 2]], some [[3, 4]]]
    let st4 : SState :=
      { nchannels := 1
        rate := 8000
        samplespertick := 2
        channels := [mk_schannel 2 0, mk_schannel 2 0]
        conf_mode := false
        skip_threshold := 8
        bypass_mode := false
        single_output := false }
    let queues4 : List (Option (List Frame)) := [some [[5, 5]], none]
    2 ≤ (s_check_bypass st queues 0).2.1 ∧
    ((mixer_process_s [true, true] st 0 queues).2.getD 0 []).length = 1 ∧
    (∀ fr ∈ (mixer_process_s [true, true] st 0 queues).2.getD 0 [],
      fr.length = st.samplespertick) ∧
    (s_check_bypass st4 queues4 0).2.1 = 1 ∧
    (mixer_process_s [true, true] st4 0 queues4).2.getD 0 [] = [[5, 5]] := by
  intro st queues st4 queues4
  have h := ((per_tick_output_frames [true, true] st 0 queues (by decide)
    (by decide) (by decide)).1 (by decide) 0 (by decide)).1 ⟨rfl, rfl⟩
  have h2 := (per_tick_output_frames [true, true] st4 0 queues4 (by decide)
    (by decide) (by decide)).2.1 0 [[5, 5]] (by decide) (by decide) rfl
    0 (by decide)
  rw [if_pos ⟨rfl, rfl, Or.inr rfl⟩] at h2
  exact ⟨by decide, h.1, h.2, by decide, h2⟩

/-! ## C6: flow control runs only on summation ticks -/

lemma mixer_process_bypass_channels (outConn : List Bool) (st : SState)
    (time : Nat) (queues : List (Option (List Frame)))
    (hcnt : (s_check_bypass st queues time).2.1 ≤ 1) :
    (mixer_process_s outConn st time queues).1.channels =
      (s_check_bypass st queues time).1.channels := by
  simp only [mixer_process_s]
  by_cases h1 : (s_check_bypass st queues time).2.1 = 1
  · rw [if_pos h1]
    cases hsel : (s_check_bypass st queues time).2.2 with
    | none => rfl
    | some p => obtain ⟨ai, inq⟩ := p; rfl
  · rw [if_neg h1, if_pos (by omega)]

lemma s_check_channels_getD (st : SState) (queues : List (Option (List Frame)))
    (time : Nat) (j : Nat) (hj : j < st.channels.length)
    (hql : st.channels.length ≤ queues.length) :
    (s_check_bypass st queues time).1.channels.getD j default =
      { st.channels.getD j default with
        last_activity := (bypass_scan time 0
          ((st.channels.map (fun (c : SChannel) => c.last_activity)).zip
            queues)).1.getD j none } := by
  have hlen_stamps : (bypass_scan time 0
      ((st.channels.map (fun c => c.last_activity)).zip queues)).1.length =
      st.channels.length := by
    rw [bypass_scan_stamps_length]
    simp only [List.length_zip, List.length_map]
    omega
  exact getD_zipWith_of_lt _ _ _ j default none default hj (by omega)

/-- C6 (amended): flow control does not run on bypass or no-op ticks (at
most one counted-active channel): every channel's bufferizer,
`min_fullness` and `last_flow_control` are left untouched.  On a
summation tick every connected channel's flow state is exactly one
`channel_flow_control` invocation applied to its drained bufferizer, and
unconnected channels are untouched. -/
theorem flow_control_only_on_summation (outConn : List Bool) (st : SState)
    (time : Nat) (queues : List (Option (List Frame)))
    (hql : st.channels.length ≤ queues.length) :
    ((s_check_bypass st queues time).2.1 ≤ 1 →
      ∀ j, j < st.channels.length →
        ((mixer_process_s outConn st time queues).1.channels.getD j
            default).buf = (st.channels.getD j default).buf ∧
        ((mixer_process_s outConn st time queues).1.channels.getD j
            default).min_fullness =
          (st.channels.getD j default).min_fullness ∧
        ((mixer_process_s outConn st time queues).1.channels.getD j
            default).last_flow_control =
          (st.channels.getD j default).last_flow_control) ∧
    (2 ≤ (s_check_bypass st queues time).2.1 →
      ∀ j, j < st.channels.length →
        (∀ q, queues.getD j none = some q →
          ((mixer_process_s outConn st time queues).1.channels.getD j
              default).buf =
            (channel_flow_control
              (s_drained st.samplespertick (st.channels.getD j default) q)
              (st.channels.getD j default).min_fullness
              (st.channels.getD j default).last_flow_control
              st.skip_threshold time).1.1 ∧
          ((mixer_process_s outConn st time queues).1.channels.getD j
              default).min_fullness =
            (channel_flow_control
              (s_drained st.samplespertick (st.channels.getD j default) q)
              (st.channels.getD j default).min_fullness
              (st.channels.getD j default).last_flow_control
              st.skip_threshold time).1.2.1 ∧
          ((mixer_process_s outConn st time queues).1.channels.getD j
              default).last_flow_control =
            (channel_flow_control
              (s_drained st.samplespertick (st.channels.getD j default) q)
              (st.channels.getD j default).min_fullness
              (st.channels.getD j default).last_flow_control
              st.skip_threshold time).1.2.2) ∧
        (queues.getD j none = none →
          ((mixer_process_s outConn st time queues).1.channels.getD j
              default).buf = (st.channels.getD j default).buf ∧
          ((mixer_process_s outConn st time queues).1.channels.getD j
              default).min_fullness =
            (st.channels.getD j default).min_fullness ∧
          ((mixer_process_s outConn st time queues).1.channels.getD j
              default).last_flow_control =
            (st.channels.getD j default).last_flow_control)) := by
  constructor
  · intro hcnt j hj
    rw [mixer_process_bypass_channels outConn st time queues hcnt]
    rw [s_check_channels_getD st queues time j hj hql]
    exact ⟨rfl, rfl, rfl⟩
  · intro hcnt j hj
    have hchans : (mixer_process_s outConn st time queues).1.channels =
        ((s_check_bypass st queues time).1.channels.zip queues).map
          (schannel_after_in st.samplespertick st.skip_threshold time) := by
      simp only [mixer_process_s]
      rw [if_neg (by omega), if_neg (by omega)]
      simp only [s_sum_inputs_fst]
    have hs1len : (s_check_bypass st queues time).1.channels.length =
        st.channels.length := by
      simp only [s_check_bypass, List.length_zipWith,
        bypass_scan_stamps_length, List.length_zip, List.length_map]
      omega
    have hgj : (mixer_process_s outConn st time queues).1.channels.getD j
        default = schannel_after_in st.samplespertick st.skip_threshold time
          ({ st.channels.getD j default with
            last_activity := (bypass_scan time 0
              ((st.channels.map (fun (c : SChannel) => c.last_activity)).zip
                queues)).1.getD j none }, queues.getD j none) := by
      rw [hchans]
      rw [getD_map_of_lt _ _ j (default, none) default
        (by simp only [List.length_zip]; omega)]
      rw [getD_zip_of_lt _ _ j default none (by omega) (by omega)]
      rw [s_check_channels_getD st queues time j hj hql]
    rw [hgj, schannel_after_in_laset]
    constructor
    · intro q hq
      rw [hq]
      have hf := schannel_after_in_flow st.samplespertick st.skip_threshold
        time (st.channels.getD j default) q
      exact ⟨hf.1, hf.2.1, hf.2.2⟩
    · intro hq
      rw [hq]
      exact ⟨rfl, rfl, rfl⟩

/-- Counterexample to C6 as stated: on a bypass tick (single active
contributor) flow control is not invoked at all - the channel's
`last_flow_control` stays at the sentinel, while one flow-control
invocation would have seeded it to the tick time. -/
theorem flow_control_bypass_counterexample :
    let st : SState :=
      { nchannels := 1
        rate := 8000
        samplespertick := 2
        channels := [mk_schannel 2 0]
        conf_mode := false
        skip_threshold := 8
        bypass_mode := false
        single_output := true }
    let queues : List (Option (List Frame)) := [some [[7, 7]]]
    (s_check_bypass st queues 5 ).2.1 = 1 ∧
    ((mixer_process_s [true] st 5 queues).1.channels.getD 0
      default).last_flow_control = none ∧
    (channel_flow_control
      (s_drained 2 (mk_schannel 2 0) [[7, 7]]) 0 none 8 5).1.2.2 = some 5 ∧
    ¬ ((mixer_process_s [true] st 5 queues).1.channels.getD 0
        default).last_flow_control =
      (channel_flow_control
        (s_drained 2 (mk_schannel 2 0) [[7, 7]]) 0 none 8 5).1.2.2 := by
  exact ⟨by decide, by decide, by decide, by decide⟩

/-- Witness for C6 (amended): a bypass tick leaves the flow state
untouched; a summation tick applies flow control once to the drained
buffer (seeding the baseline here). -/
theorem flow_control_only_on_summation_witness :
    let st : SState :=
      { nchannels := 1
        rate := 8000
        samplespertick := 2
        channels := [mk_schannel 2 0, mk_schannel 2 0]
        conf_mode := false
        skip_threshold := 8
        bypass_mode := false
        single_output := false }
    let qbp : List (Option (List Frame)) := [some [[7, 7]], none]
    let qsum : List (Option (List Frame)) := [some [[1, 2]], some [[3, 4]]]
    ((s_check_bypass st qbp 0).2.1 ≤ 1 ∧
      ((mixer_process_s [true, true] st 0 qbp).1.channels.getD 0
        default).last_flow_control =
        (st.channels.getD 0 default).last_flow_control) ∧
    (2 ≤ (s_check_bypass st qsum 0).2.1 ∧
      ((mixer_process_s [true, true] st 0 qsum).1.channels.getD 0
        default).last_flow_control =
        (channel_flow_control
          (s_drained 2 (st.channels.getD 0 default) [[1, 2]])
          (st.channels.getD 0 default).min_fullness
          (st.channels.getD 0 default).last_flow_control 8 0).1.2.2) := by
  intro st qbp qsum
  constructor
  · exact ⟨by decide,
      ((flow_control_only_on_summation [true, true] st 0 qbp
        (by decide)).1 (by decide) 0 (by decide)).2.2⟩
  · exact ⟨by decide,
      (((flow_control_only_on_summation [true, true] st 0 qsum
        (by decide)).2 (by decide) 0 (by decide)).1 [[1, 2]] rfl).2.2⟩

theorem avx2_scalar_divergence_counterexample :
    let oc : List Bool := List.replicate 3 true ++ List.replicate 125 false
    let qs : List (Option (List Frame)) :=
      [some [[100, -50, 0, 0, 0, 0, 0, 0]], some [[200, 30, 0, 0, 0, 0, 0, 0]],
        none] ++ List.replicate 125 none
    let evs : List MEvent := [MEvent.evSetConference true, MEvent.tick 0 qs 9]
    ¬ (runS oc (mk_sstate 1 8000 1 oc 7) evs).2 =
      (runA oc (mk_astate 1 8000 1 oc 7) evs).2 := by
  decide

/-! ## C2: scalar/AVX2 trace equivalence machinery -/

lemma forall2_replicate {α β : Type} (R : α → β → Prop) (a : α) (b : β)
    (n : Nat) (h : R a b) :
    List.Forall₂ R (List.replicate n a) (List.replicate n b) := by
  induction n with
  | zero => exact List.Forall₂.nil
  | succ n ih => exact List.Forall₂.cons h ih

lemma map_eq_of_forall2 {α β γ : Type} {R : α → β → Prop} {l1 : List α}
    {l2 : List β} (f : α → γ) (g : β → γ) (h : List.Forall₂ R l1 l2)
    (hfg : ∀ x y, R x y → f x = g y) : l1.map f = l2.map g := by
  induction h with
  | nil => rfl
  | cons hxy _ ih => simp only [List.map_cons, hfg _ _ hxy, ih]

lemma forall2_list_modify {α β : Type} {R : α → β → Prop} {l1 : List α}
    {l2 : List β} (f : α → α) (g : β → β) (n : Nat)
    (h : List.Forall₂ R l1 l2) (hfg : ∀ x y, R x y → R (f x) (g y)) :
    List.Forall₂ R (list_modify f n l1) (list_modify g n l2) := by
  induction h generalizing n with
  | nil => cases n <;> exact List.Forall₂.nil
  | cons hxy hrest ih =>
    cases n with
    | zero => exact List.Forall₂.cons (hfg _ _ hxy) hrest
    | succ n' => exact List.Forall₂.cons hxy (ih n')

lemma list_modify_length {α : Type} (f : α → α) (n : Nat) (l : List α) :
    (list_modify f n l).length = l.length := by
  induction l generalizing n with
  | nil => cases n <;> rfl
  | cons x rest ih =>
    cases n with
    | zero => rfl
    | succ n' => simp [list_modify, ih]

lemma forall2_zip_same {α β γ : Type} {R : α → β → Prop} {l1 : List α}
    {l2 : List β} (h : List.Forall₂ R l1 l2) (qs : List γ) :
    List.Forall₂ (fun p r => R p.1 r.1 ∧ p.2 = r.2) (l1.zip qs) (l2.zip qs) := by
  induction h generalizing qs with
  | nil => exact List.Forall₂.nil
  | cons hxy _ ih =>
    cases qs with
    | nil => exact List.Forall₂.nil
    | cons q qr => exact List.Forall₂.cons ⟨hxy, rfl⟩ (ih qr)

lemma forall2_zipWith_laset {l1 : List SChannel} {l2 : List AChannel}
    (h : List.Forall₂ chanRel l1 l2) (las : List (Option Nat)) :
    List.Forall₂ chanRel
      (List.zipWith (fun c la => { c with last_activity := la }) l1 las)
      (List.zipWith (fun c la => { c with last_activity := la }) l2 las) := by
  induction h generalizing las with
  | nil => exact List.Forall₂.nil
  | cons hxy _ ih =>
    cases las with
    | nil => exact List.Forall₂.nil
    | cons la lr =>
      refine List.Forall₂.cons ?_ (ih lr)
      obtain ⟨h1, h2, h3, h4, h5, h6⟩ := hxy
      exact ⟨h1, h2, h3, rfl, h5, h6⟩

lemma stRel_mk (nch rate interval : Nat) (hr : rate = 8000 ∨ rate = 16000)
    (oc : List Bool) (g1 g2 : Int) :
    stRel (mk_sstate nch rate interval oc g1) (mk_astate nch rate interval oc g2) := by
  have hspt : ∃ k : Nat, nch * rate * interval = 8 * k * 1000 := by
    rcases hr with h | h <;> subst h
    · exact ⟨nch * interval, by ring⟩
    · exact ⟨2 * (nch * interval), by ring⟩
  obtain ⟨k, hk⟩ := hspt
  have h1 : nch * rate * interval / 1000 = 8 * k := by
    rw [hk, Nat.mul_div_cancel _ (by norm_num)]
  have h2 : 2 * nch * rate * interval / 1000 = 16 * k := by
    have : 2 * nch * rate * interval = 16 * k * 1000 := by
      rw [show 2 * nch * rate * interval = 2 * (nch * rate * interval) by ring,
        hk]
      ring
    rw [this, Nat.mul_div_cancel _ (by norm_num)]
  unfold stRel mk_sstate mk_astate
  refine ⟨by simp only [h1, h2]; ring, ?_, by simp, ?_, rfl, rfl, rfl, ?_⟩
  · rw [h1]
    exact ⟨k, by ring⟩
  · simp only [h1, h2]
    push_cast
    ring
  · refine forall2_replicate _ _ _ _ ?_
    unfold chanRel mk_schannel mk_achannel
    rw [h1, h2]
    exact ⟨rfl, rfl, rfl, rfl, rfl, rfl⟩

lemma stRel_channels_modify {s : SState} {a : AState} (hrel : stRel s a)
    (f : SChannel → SChannel) (g : AChannel → AChannel) (n : Nat)
    (hfg : ∀ x y, chanRel x y → chanRel (f x) (g y)) :
    List.Forall₂ chanRel (list_modify f n s.channels)
      (list_modify g n a.channels) :=
  forall2_list_modify f g n hrel.2.2.2.2.2.2.2 hfg

lemma stRel_ctrl (s : SState) (a : AState) (oc : List Bool)
    (hrel : stRel s a) :
    (∀ r, stRel (mixer_set_rate_s s r).1 (mixer_set_rate_a a r).1) ∧
    (∀ n, stRel (mixer_set_nchannels_s s n).1 (mixer_set_nchannels_a a n).1) ∧
    (∀ p b, stRel (mixer_set_active_s s p b).1 (mixer_set_active_a a p b).1) ∧
    (∀ p b, stRel (mixer_enable_output_s oc s p b).1
      (mixer_enable_output_a oc a p b).1) ∧
    (∀ b, stRel (mixer_set_conference_s s b).1 (mixer_set_conference_a a b).1) ∧
    stRel (mixer_set_input_gain_s s).1 (mixer_set_input_gain_a a).1 := by
  obtain ⟨h1, h2, h3, h4, h5, h6, h7, h8⟩ := hrel
  refine ⟨?_, ?_, ?_, ?_, ?_, ?_⟩
  · intro r
    unfold mixer_set_rate_s mixer_set_rate_a
    split_ifs <;> exact ⟨h1, h2, h3, h4, h5, h6, h7, h8⟩
  · intro n
    exact ⟨h1, h2, h3, h4, h5, h6, h7, h8⟩
  · intro p b
    unfold mixer_set_active_s mixer_set_active_a
    split_ifs with hp
    · exact ⟨h1, h2, h3, h4, h5, h6, h7, h8⟩
    · refine ⟨h1, h2, ?_, h4, h5, h6, h7, ?_⟩
      · simpa [list_modify_length] using h3
      · exact forall2_list_modify _ _ _ h8
          (fun x y hxy => ⟨hxy.1, hxy.2.1, hxy.2.2.1, hxy.2.2.2.1, rfl,
            hxy.2.2.2.2.2⟩)
  · intro p b
    unfold mixer_enable_output_s mixer_enable_output_a
    split_ifs with hp
    · exact ⟨h1, h2, h3, h4, h5, h6, h7, h8⟩
    · have hmod : List.Forall₂ chanRel
          (list_modify (fun ch => { ch with output_enabled := b }) p.toNat
            s.channels)
          (list_modify (fun ch => { ch with output_enabled := b }) p.toNat
            a.channels) :=
        forall2_list_modify _ _ _ h8
          (fun x y hxy => ⟨hxy.1, hxy.2.1, hxy.2.2.1, hxy.2.2.2.1,
            hxy.2.2.2.2.1, rfl⟩)
      have hmap : (list_modify (fun ch => { ch with output_enabled := b })
          p.toNat s.channels).map (fun c => c.output_enabled) =
          (list_modify (fun ch => { ch with output_enabled := b })
            p.toNat a.channels).map (fun c => c.output_enabled) :=
        map_eq_of_forall2 _ _ hmod (fun x y hxy => hxy.2.2.2.2.2)
      refine ⟨h1, h2, ?_, h4, h5, h6, ?_, hmod⟩
      · simpa [list_modify_length] using h3
      · show has_single_output oc
            ((list_modify (fun ch => { ch with output_enabled := b })
              p.toNat a.channels).map (fun c => c.output_enabled)) =
          has_single_output oc
            ((list_modify (fun ch => { ch with output_enabled := b })
              p.toNat s.channels).map (fun c => c.output_enabled))
        rw [hmap]
  · intro b
    exact ⟨h1, h2, h3, h4, rfl, h6, h7, h8⟩
  · exact ⟨h1, h2, h3, h4, h5, h6, h7, h8⟩

lemma avx_accumulate_eq (spt : Nat) (h8 : 8 ∣ spt) (sum contrib : List Int)
    (hs : sum.length = spt) (hc : contrib.length = spt) :
    avx_accumulate sum contrib spt = List.zipWith (· + ·) sum contrib := by
  have hnv : spt / 8 * 8 = spt := Nat.div_mul_cancel h8
  have t1 : sum.take spt = sum := by rw [← hs, List.take_length]
  have t2 : contrib.take spt = contrib := by rw [← hc, List.take_length]
  have t3 : sum.drop spt = [] := by rw [← hs, List.drop_length]
  simp only [avx_accumulate, VLENGTH, hnv, t1, t2, t3, List.append_nil]

lemma make_output_eq (g : Int) (spt : Nat) (h8 : 8 ∣ spt) (sum : List Int)
    (hs : sum.length = spt) :
    make_output g sum spt = sum.map saturate_sample := by
  have hnv : spt / 8 * 8 = spt := Nat.div_mul_cancel h8
  have t1 : sum.take spt = sum := by rw [← hs, List.take_length]
  have hsat : saturate = saturate_sample := rfl
  simp only [make_output, VLENGTH, hnv, t1, Nat.sub_self, List.replicate_zero,
    List.append_nil, hsat]

lemma zipWith_satsub_replicate_zero (sum : List Int) (n : Nat)
    (hs : sum.length = n) :
    List.zipWith (fun a b => saturate (a - b)) sum (List.replicate n 0) =
      sum.map saturate_sample := by
  induction sum generalizing n with
  | nil => simp
  | cons x rest ih =>
    cases n with
    | zero => simp at hs
    | succ n' =>
      simp only [List.replicate, List.zipWith, List.map_cons, sub_zero]
      rw [ih n' (by simpa using hs)]
      rfl

lemma phase1_rel (spt : Nat) (thr : Int) (time : Nat) (h8 : 8 ∣ spt) :
    ∀ (l1 : List (SChannel × Option (List Frame)))
      (l2 : List (AChannel × Option (List Frame))),
      List.Forall₂ (fun p r => chanRel p.1 r.1 ∧ p.2 = r.2) l1 l2 →
      ∀ sum : List Int, sum.length = spt →
      (s_sum_inputs spt thr time l1 sum).2 =
        (a_sum_inputs spt thr time l2 sum).2 ∧
      (s_sum_inputs spt thr time l1 sum).2.length = spt ∧
      List.Forall₂ chanRel (s_sum_inputs spt thr time l1 sum).1
        (a_sum_inputs spt thr time l2 sum).1 ∧
      List.Forall₂ (fun (p : SChannel × Option (List Frame))
          (r : AChannel × Option (List Frame)) =>
          p.2 = r.2 ∧
          (∀ q, p.2 = some q →
            (p.1.had_input = true → p.1.input = r.1.input ∧
              r.1.input.length = spt) ∧
            (p.1.had_input = false ∧ p.1.active = true →
              r.1.input = List.replicate spt 0)))
        ((s_sum_inputs spt thr time l1 sum).1.zip (l1.map Prod.snd))
        ((a_sum_inputs spt thr time l2 sum).1.zip (l2.map Prod.snd)) := by
  intro l1 l2 hl
  induction hl with
  | nil =>
    intro sum hsum
    exact ⟨rfl, hsum, List.Forall₂.nil, List.Forall₂.nil⟩
  | @cons p r l1' l2' hpr hrest ih =>
    obtain ⟨ch, q?⟩ := p
    obtain ⟨ach, q2?⟩ := r
    obtain ⟨hcr, hq⟩ := hpr
    obtain ⟨hbuf, hmin, hlfc, hla, hact, hen⟩ := hcr
    simp only at hq hbuf hmin hlfc hla hact hen
    subst hq
    intro sum hsum
    cases q? with
    | none =>
      simp only [s_sum_inputs, a_sum_inputs, List.map_cons]
      obtain ⟨ih1, ih2, ih3, ih4⟩ := ih sum hsum
      refine ⟨ih1, ih2,
        List.Forall₂.cons ⟨hbuf, hmin, hlfc, hla, hact, hen⟩ ih3, ?_⟩
      simp only [List.zip_cons_cons]
      refine List.Forall₂.cons ⟨rfl, ?_⟩ ih4
      intro q hq
      exact absurd hq (by simp)
    | some q =>
      simp only [s_sum_inputs, a_sum_inputs, List.map_cons,
        schannel_process_in, achannel_process_in, read_ok, ← hbuf,
        ← hmin, ← hlfc]
      by_cases hro : 0 < spt ∧ spt ≤ (ch.buf ++ q.flatten).length
      · rw [if_pos hro, if_pos hro]
        have hinplen : ((ch.buf ++ q.flatten).take spt).length = spt := by
          simp only [List.length_take]
          omega
        have hsum' : (if ach.active = true then
            avx_accumulate sum ((ch.buf ++ q.flatten).take spt) spt
            else sum) =
            (if ch.active = true then
              List.zipWith (· + ·) sum ((ch.buf ++ q.flatten).take spt)
              else sum) := by
          rw [← hact]
          by_cases ha : ch.active = true
          · rw [if_pos ha, if_pos ha,
              avx_accumulate_eq spt h8 _ _ hsum hinplen]
          · rw [if_neg ha, if_neg ha]
        have hsumlen : (if ch.active = true then
            List.zipWith (· + ·) sum ((ch.buf ++ q.flatten).take spt)
            else sum).length = spt := by
          split_ifs
          · simp only [List.length_zipWith, hinplen, hsum]
            omega
          · exact hsum
        rw [hsum']
        obtain ⟨ih1, ih2, ih3, ih4⟩ := ih _ hsumlen
        refine ⟨ih1, ih2, List.Forall₂.cons ?_ ih3, ?_⟩
        · exact ⟨rfl, rfl, rfl, hla, hact, hen⟩
        · simp only [List.zip_cons_cons]
          refine List.Forall₂.cons ⟨rfl, ?_⟩ ih4
          intro q' hq'
          constructor
          · intro _
            exact ⟨rfl, hinplen⟩
          · rintro ⟨hf, ht⟩
            have hf' : ch.active = false := hf
            have ht' : ch.active = true := ht
            rw [ht'] at hf'
            exact absurd hf' (by simp)
      · rw [if_neg hro, if_neg hro]
        obtain ⟨ih1, ih2, ih3, ih4⟩ := ih sum hsum
        refine ⟨ih1, ih2, List.Forall₂.cons ?_ ih3, ?_⟩
        · exact ⟨rfl, rfl, rfl, hla, hact, hen⟩
        · simp only [List.zip_cons_cons]
          refine List.Forall₂.cons ⟨rfl, ?_⟩ ih4
          intro q' hq'
          constructor
          · intro hf
            have hf' : (false : Bool) = true := hf
            exact absurd hf' (by simp)
          · intro _
            rfl

lemma outputs_rel (conf : Bool) (spt : Nat) (h8 : 8 ∣ spt) (g : Int)
    (sum : List Int) (hlen : sum.length = spt) :
    ∀ (chs1 : List SChannel) (chs2 : List AChannel)
      (qs : List (Option (List Frame))) (oc : List Bool),
      List.Forall₂ chanRel chs1 chs2 →
      List.Forall₂ (fun (p : SChannel × Option (List Frame))
          (r : AChannel × Option (List Frame)) =>
          p.2 = r.2 ∧
          (∀ q, p.2 = some q →
            (p.1.had_input = true → p.1.input = r.1.input ∧
              r.1.input.length = spt) ∧
            (p.1.had_input = false ∧ p.1.active = true →
              r.1.input = List.replicate spt 0)))
        (chs1.zip qs) (chs2.zip qs) →
      List.Forall₂ (fun (c : Bool) (q? : Option (List Frame)) =>
        c = true → q?.isSome = true) oc qs →
      s_outputs conf sum (chs1.zip oc) = a_outputs g spt conf sum (chs2.zip oc) := by
  intro chs1 chs2 qs oc hcr hrel hconn
  induction hcr generalizing qs oc with
  | nil => cases oc <;> rfl
  | @cons c1 c2 r1 r2 hc12 hr12 ih =>
    cases oc with
    | nil => rfl
    | cons o or =>
      cases qs with
      | nil => exact nomatch hconn
      | cons q? qr =>
        simp only [List.zip_cons_cons] at hrel ⊢
        have hrelh := List.forall₂_cons.1 hrel
        have hconnh := List.forall₂_cons.1 hconn
        obtain ⟨hbuf, hmin, hlfc, hla, hact, hen⟩ := hc12
        simp only [s_outputs, a_outputs]
        congr 1
        · by_cases hoc : o = true ∧ c1.output_enabled = true
          · rw [if_pos hoc]
            rw [if_pos (show o = true ∧ c2.output_enabled = true from
              ⟨hoc.1, hen ▸ hoc.2⟩)]
            congr 1
            cases conf with
            | false =>
              rw [if_neg (fun hcond =>
                absurd hcond.2.2 (by simp) :
                ¬(c1.active = true ∧ c1.had_input = true ∧
                  (false : Bool) = true))]
              rw [if_neg (fun hff => absurd hff (by simp) :
                ¬((false : Bool) = true))]
              exact (make_output_eq g spt h8 sum hlen).symm
            | true =>
              rw [if_pos (rfl : (true : Bool) = true)]
              have hq : q?.isSome = true := hconnh.1 hoc.1
              cases q? with
              | none => simp at hq
              | some q =>
                have hfacts := hrelh.1.2 q rfl
                have hsat : saturate = saturate_sample := rfl
                have hnv : spt / 8 * 8 = spt := Nat.div_mul_cancel h8
                have t1 : sum.take spt = sum := by
                  rw [← hlen, List.take_length]
                by_cases ha : c1.active = true
                · simp only [achannel_process_out, VLENGTH, hnv, ← hact,
                    if_pos ha, Nat.sub_self, List.replicate_zero,
                    List.append_nil, t1]
                  by_cases hhi : c1.had_input = true
                  · rw [if_pos (show c1.active = true ∧
                      c1.had_input = true ∧ True from ⟨ha, hhi, trivial⟩)]
                    have hinp : c1.input = c2.input := (hfacts.1 hhi).1
                    have hinlen : c2.input.length = spt := (hfacts.1 hhi).2
                    have t2 : c2.input.take spt = c2.input := by
                      rw [← hinlen, List.take_length]
                    rw [t2, ← hinp, hsat]
                  · rw [if_neg (fun hcond =>
                      absurd hcond.2.1 hhi :
                      ¬(c1.active = true ∧ c1.had_input = true ∧ True))]
                    have hhif : c1.had_input = false := by
                      simpa using hhi
                    have hzero : c2.input = List.replicate spt 0 :=
                      hfacts.2 ⟨hhif, ha⟩
                    rw [hzero, List.take_replicate, Nat.min_self,
                      zipWith_satsub_replicate_zero sum spt hlen]
                · simp only [achannel_process_out, VLENGTH, hnv, ← hact,
                    if_neg ha, Nat.sub_self, List.replicate_zero,
                    List.append_nil, t1]
                  rw [if_neg (fun hcond => absurd hcond.1 ha :
                    ¬(c1.active = true ∧ c1.had_input = true ∧ True))]
                  rw [hsat]
          · rw [if_neg hoc, if_neg (fun hcond =>
              absurd ⟨hcond.1, hen ▸ hcond.2⟩ hoc :
              ¬(o = true ∧ c2.output_enabled = true))]
        · exact ih qr or hrelh.2 hconnh.2

lemma tick_rel (oc : List Bool) (s : SState) (a : AState) (time : Nat)
    (qs : List (Option (List Frame))) (g : Int)
    (hrel : stRel s a)
    (hqs : qs.length = MIXER_MAX_CHANNELS)
    (hconn : List.Forall₂ (fun (c : Bool) (q? : Option (List Frame)) =>
      c = true → q?.isSome = true) oc qs) :
    (mixer_process_s oc s time qs).2 = (mixer_process_a oc g a time qs).2 ∧
    stRel (mixer_process_s oc s time qs).1 (mixer_process_a oc g a time qs).1 := by
  obtain ⟨h1, h2, h3, h4, h5, h6, h7, h8⟩ := hrel
  have halen : a.channels.length = MIXER_MAX_CHANNELS := by
    rw [← h8.length_eq]
    exact h3
  have hlas : s.channels.map (fun c => c.last_activity) =
      a.channels.map (fun c => c.last_activity) :=
    map_eq_of_forall2 _ _ h8 (fun x y hxy => hxy.2.2.2.1)
  have hr2 : (a_check_bypass a qs time).2 = (s_check_bypass s qs time).2 := by
    simp only [a_check_bypass, s_check_bypass, hlas]
  have hch1 : List.Forall₂ chanRel (s_check_bypass s qs time).1.channels
      (a_check_bypass a qs time).1.channels := by
    simp only [a_check_bypass, s_check_bypass, hlas]
    exact forall2_zipWith_laset h8 _
  have hstamps : (bypass_scan time 0
      ((a.channels.map (fun c => c.last_activity)).zip qs)).1.length =
      MIXER_MAX_CHANNELS := by
    rw [bypass_scan_stamps_length]
    simp only [List.length_zip, List.length_map]
    omega
  have hs1len : (s_check_bypass s qs time).1.channels.length =
      MIXER_MAX_CHANNELS := by
    simp only [s_check_bypass, List.length_zipWith,
      bypass_scan_stamps_length, List.length_zip, List.length_map]
    omega
  have hs1so : (s_check_bypass s qs time).1.single_output =
      s.single_output := rfl
  have ha1so : (a_check_bypass a qs time).1.single_output =
      a.single_output := rfl
  have hs1cm : (s_check_bypass s qs time).1.conf_mode = s.conf_mode := rfl
  have ha1cm : (a_check_bypass a qs time).1.conf_mode = a.conf_mode := rfl
  have hmapconst : (s_check_bypass s qs time).1.channels.map
      (fun _ => ([] : List Frame)) =
      (a_check_bypass a qs time).1.channels.map (fun _ => []) :=
    map_eq_of_forall2 _ _ hch1 (fun _ _ _ => rfl)
  simp only [mixer_process_s, mixer_process_a]
  rw [hr2]
  by_cases hcnt1 : (s_check_bypass s qs time).2.1 = 1
  · rw [if_pos hcnt1, if_pos hcnt1]
    cases hsel : (s_check_bypass s qs time).2.2 with
    | none =>
      exact ⟨hmapconst, h1, h2, hs1len, h4, h5, h6, h7, hch1⟩
    | some p =>
      obtain ⟨ai, inq⟩ := p
      have hmapen : (s_check_bypass s qs time).1.channels.map
          (fun c => c.output_enabled) =
          (a_check_bypass a qs time).1.channels.map
            (fun c => c.output_enabled) :=
        map_eq_of_forall2 _ _ hch1 (fun x y hxy => hxy.2.2.2.2.2)
      constructor
      · rw [hmapen, ha1so, hs1so, h7, ha1cm, hs1cm, h5]
      · exact ⟨h1, h2, hs1len, h4, h5, rfl, h7, hch1⟩
  · rw [if_neg hcnt1, if_neg hcnt1]
    by_cases hcnt0 : (s_check_bypass s qs time).2.1 = 0
    · rw [if_pos hcnt0, if_pos hcnt0]
      exact ⟨hmapconst, h1, h2, hs1len, h4, h5, h6, h7, hch1⟩
    · rw [if_neg hcnt0, if_neg hcnt0]
      have hsptw : a.bytespertick / 2 = s.samplespertick := by omega
      rw [hsptw, h4]
      have hzip := forall2_zip_same hch1 qs
      have hsum0 : (List.replicate s.samplespertick (0 : Int)).length =
          s.samplespertick := by simp
      have hph := phase1_rel s.samplespertick s.skip_threshold time h2
        ((s_check_bypass s qs time).1.channels.zip qs)
        ((a_check_bypass a qs time).1.channels.zip qs) hzip
        (List.replicate s.samplespertick 0) hsum0
      obtain ⟨ih1, ih2, ih3, ih4⟩ := hph
      have ha1len : (a_check_bypass a qs time).1.channels.length =
          MIXER_MAX_CHANNELS := by
        rw [← hch1.length_eq]
        exact hs1len
      have hmapsnd1 : ((s_check_bypass s qs time).1.channels.zip qs).map
          Prod.snd = qs :=
        List.map_snd_zip _ _ (by omega)
      have hmapsnd2 : ((a_check_bypass a qs time).1.channels.zip qs).map
          Prod.snd = qs :=
        List.map_snd_zip _ _ (by omega)
      rw [hmapsnd1, hmapsnd2] at ih4
      have hphlen : (s_sum_inputs s.samplespertick s.skip_threshold time
          ((s_check_bypass s qs time).1.channels.zip qs)
          (List.replicate s.samplespertick 0)).1.length =
          MIXER_MAX_CHANNELS := by
        rw [s_sum_inputs_fst]
        simp only [List.length_map, List.length_zip]
        omega
      constructor
      · rw [ha1cm, hs1cm, h5, ← ih1]
        exact outputs_rel s.conf_mode s.samplespertick h2 g _ ih2 _ _ qs oc
          ih3 ih4 hconn
      · exact ⟨h1, h2, hphlen, h4, h5, rfl, h7, ih3⟩

lemma run_rel (oc : List Bool) (evs : List MEvent)
    (hevs : ∀ ev ∈ evs, ∀ t qs g, ev = MEvent.tick t qs g →
      qs.length = MIXER_MAX_CHANNELS ∧
      List.Forall₂ (fun (c : Bool) (q? : Option (List Frame)) =>
        c = true → q?.isSome = true) oc qs) :
    ∀ (s : SState) (a : AState), stRel s a →
      (runS oc s evs).2 = (runA oc a evs).2 := by
  induction evs with
  | nil => intro s a _; rfl
  | cons ev rest ih =>
    intro s a hrel
    have hrest := fun e he => hevs e (List.mem_cons_of_mem _ he)
    cases ev with
    | tick t qs g =>
      obtain ⟨hlen, hconn⟩ := hevs _ (List.mem_cons_self _ _) t qs g rfl
      have ht := tick_rel oc s a t qs g hrel hlen hconn
      simp only [runS, runA]
      rw [ht.1]
      exact congrArg _ (ih hrest _ _ ht.2)
    | evSetRate r =>
      simp only [runS, runA]
      exact ih hrest _ _ ((stRel_ctrl s a oc hrel).1 r)
    | evSetNChannels n =>
      simp only [runS, runA]
      exact ih hrest _ _ ((stRel_ctrl s a oc hrel).2.1 n)
    | evSetActive p b =>
      simp only [runS, runA]
      exact ih hrest _ _ ((stRel_ctrl s a oc hrel).2.2.1 p b)
    | evEnableOutput p b =>
      simp only [runS, runA]
      exact ih hrest _ _ ((stRel_ctrl s a oc hrel).2.2.2.1 p b)
    | evSetConference b =>
      simp only [runS, runA]
      exact ih hrest _ _ ((stRel_ctrl s a oc hrel).2.2.2.2.1 b)
    | evSetInputGain =>
      simp only [runS, runA]
      exact ih hrest _ _ ((stRel_ctrl s a oc hrel).2.2.2.2.2)
    | evSetMasterChannel =>
      simp only [runS, runA]
      exact ih hrest _ _ hrel

/-- C2 (amended): for every configuration supported by both strategies
(sample rate 8000 or 16000) in which every connected output pin also has a
connected input queue on every tick, and for every sequence of ticks and
control operations after prepare, the scalar and the vectorized mixer emit
bit-identical output frames on every tick, whatever uninitialized memory
(`g1`, `g2`, per-tick `allocb` garbage) contains.  Without the
input-connection condition the strategies diverge: in conference mode the
vectorized mixer subtracts the never-written contribution buffer of an
active, output-enabled channel that has no input, where the scalar mixer
emits the generic mix. -/
theorem avx2_bitidentical_outputs (nch rate interval : Nat)
    (hrate : rate = 8000 ∨ rate = 16000) (oc : List Bool) (g1 g2 : Int)
    (evs : List MEvent)
    (hevs : ∀ ev ∈ evs, ∀ t qs g, ev = MEvent.tick t qs g →
      qs.length = MIXER_MAX_CHANNELS ∧
      List.Forall₂ (fun (c : Bool) (q? : Option (List Frame)) =>
        c = true → q?.isSome = true) oc qs) :
    (runS oc (mk_sstate nch rate interval oc g1) evs).2 =
      (runA oc (mk_astate nch rate interval oc g2) evs).2 :=
  run_rel oc evs hevs _ _ (stRel_mk nch rate interval hrate oc g1 g2)

/-- Witness for C2 (amended): rate 16000, every pin's input connected,
one conference toggle and two ticks, different uninitialized fill
values. -/
theorem avx2_bitidentical_outputs_witness :
    let oc : List Bool := List.replicate MIXER_MAX_CHANNELS true
    let qs : List (Option (List Frame)) :=
      List.replicate MIXER_MAX_CHANNELS (some [])
    let evs : List MEvent :=
      [MEvent.evSetConference true, MEvent.tick 0 qs 9, MEvent.tick 1 qs 11]
    ((16000 : Nat) = 8000 ∨ (16000 : Nat) = 16000) ∧
    (∀ ev ∈ evs, ∀ t qs2 g, ev = MEvent.tick t qs2 g →
      qs2.length = MIXER_MAX_CHANNELS ∧
      List.Forall₂ (fun (c : Bool) (q? : Option (List Frame)) =>
        c = true → q?.isSome = true) oc qs2) ∧
    (runS oc (mk_sstate 1 16000 1 oc 7) evs).2 =
      (runA oc (mk_astate 1 16000 1 oc 13) evs).2 := by
  intro oc qs evs
  have hevs : ∀ ev ∈ evs, ∀ t qs2 g, ev = MEvent.tick t qs2 g →
      qs2.length = MIXER_MAX_CHANNELS ∧
      List.Forall₂ (fun (c : Bool) (q? : Option (List Frame)) =>
        c = true → q?.isSome = true) oc qs2 := by
    intro ev hev t qs2 g heq
    subst heq
    simp only [evs, List.mem_cons, List.not_mem_nil, or_false] at hev
    have hq : qs.length = MIXER_MAX_CHANNELS ∧
        List.Forall₂ (fun (c : Bool) (q? : Option (List Frame)) =>
          c = true → q?.isSome = true) oc qs := by
      refine ⟨by simp [qs, MIXER_MAX_CHANNELS], ?_⟩
      exact forall2_replicate _ true (some []) MIXER_MAX_CHANNELS (fun _ => rfl)
    rcases hev with h | h | h
    · exact absurd h (by simp)
    · injection h with h1 h2 h3
      subst h2
      exact hq
    · injection h with h1 h2 h3
      subst h2
      exact hq
  exact ⟨Or.inr rfl, hevs,
    avx2_bitidentical_outputs 1 16000 1 (Or.inr rfl) oc 7 13 evs hevs⟩
